import Mathlib

/-!
Verification of the LedgerFlow core: shallow embeddings of the storage
primitives (`storage.py`), the alert delivery pipeline (`alert_delivery.py`),
the ledger corrections reducer (`ledger.py`), the task engine and scheduler
(`automation.py`), and the alerts engine (`alerts.py`), together with
theorems settling the specification claims about them.
-/

namespace LedgerFlow

/-! ### Storage primitives (`storage.py`)

`write_json` is embedded as the trace of file-system operations it performs.
The JSON serialization itself is treated as an opaque string `content`
(`json.dumps(obj, indent=2, sort_keys=True, ensure_ascii=False)`).
-/

/-- A file-system operation performed by the storage layer. -/
inductive FsOp where
  | mkdirp (dir : String)
  | openTrunc (path : String)
  | writeData (path : String) (data : String)
  | closeFile (path : String)
  | rename (src : String) (dst : String)
  deriving Repr, DecidableEq

/-- Whether an operation is a rename. -/
def FsOp.isRename : FsOp → Bool
  | .rename _ _ => true
  | _ => false

/-- The path an operation touches as its (final) destination. -/
def FsOp.target : FsOp → String
  | .mkdirp d => d
  | .openTrunc p => p
  | .writeData p _ => p
  | .closeFile p => p
  | .rename _ dst => dst

/-- Trace of `write_json(path, obj)` from `storage.py`: `ensure_dir(p.parent)`,
then `p.open("w")` (which truncates the final path), `json.dump` plus a
trailing newline, and close. -/
def writeJsonTrace (parent : String) (path : String) (content : String) : List FsOp :=
  [FsOp.mkdirp parent, FsOp.openTrunc path, FsOp.writeData path content,
   FsOp.writeData path "\n", FsOp.closeFile path]

/-! ### Delivery pipeline (`alert_delivery.py`)

The per-channel delivery run of `deliver_alert_events` is embedded as
`runChannel`: the sink (`_deliver_to_channel`) is abstracted as a function
from an event to `Except String Unit` (success, or the raised error message).
-/

/-- `_to_cursor(value, max_value)`: coerce the stored cursor to an int
(unparseable values become 0, modeled as `none`), and reset to 0 when
negative or beyond `max_value`. -/
def toCursor (value : Option Int) (maxValue : Nat) : Nat :=
  if value.getD 0 < 0 ∨ (maxValue : Int) < value.getD 0 then 0
  else (value.getD 0).toNat

/-- Outcome of the inner delivery loop over the pending events. -/
structure DeliverLoopOut where
  delivered : Nat
  failedFlag : Nat
  errMsg : Option String
  attempted : Nat
  deriving Repr, DecidableEq

/-- The `for event in pending` loop: deliver each event via the sink,
counting successes; the first failure sets `failed = 1`, records the error
and breaks. `attempted` counts how many sink calls were made. -/
def deliverLoop (sink : ε → Except String Unit) : List ε → DeliverLoopOut
  | [] => ⟨0, 0, none, 0⟩
  | e :: rest =>
    match sink e with
    | .ok _ =>
      let r := deliverLoop sink rest
      ⟨r.delivered + 1, r.failedFlag, r.errMsg, r.attempted + 1⟩
    | .error msg => ⟨0, 1, some msg, 1⟩

/-- The pending slice for a channel: `events[cursor_before:]`, truncated to
`limit` items when `limit >= 0`. -/
def pendingOf (events : List ε) (stored : Option Int) (limit : Int) : List ε :=
  let cursorBefore := toCursor stored events.length
  let pendingAll := events.drop cursorBefore
  if 0 ≤ limit then pendingAll.take limit.toNat else pendingAll

/-- Result of one channel's delivery run, including the state row written
back (`cursor`, `lastError`). -/
structure ChannelRun where
  cursorBefore : Nat
  cursorAfter : Nat
  pendingCount : Nat
  delivered : Nat
  failedFlag : Nat
  errMsg : Option String
  attempted : Nat
  stateCursor : Nat
  stateLastError : Option String
  deriving Repr, DecidableEq

/-- One channel's run inside `deliver_alert_events` (non-dry-run): compute
`cursor_before` via `_to_cursor`, take the pending slice, run the delivery
loop, advance the cursor by the number of successes and write the state row
(`cursor := cursor_after`; `lastError := error` on failure, `None` otherwise). -/
def runChannel (sink : ε → Except String Unit) (events : List ε)
    (stored : Option Int) (limit : Int) : ChannelRun :=
  let cursorBefore := toCursor stored events.length
  let pending := pendingOf events stored limit
  let r := deliverLoop sink pending
  let cursorAfter := cursorBefore + r.delivered
  { cursorBefore := cursorBefore
    cursorAfter := cursorAfter
    pendingCount := pending.length
    delivered := r.delivered
    failedFlag := r.failedFlag
    errMsg := r.errMsg
    attempted := r.attempted
    stateCursor := cursorAfter
    stateLastError := r.errMsg }

/-- Whether a sink call succeeded. -/
def sinkOk (sink : ε → Except String Unit) (e : ε) : Bool :=
  match sink e with
  | .ok _ => true
  | .error _ => false

theorem deliverLoop_delivered_le (sink : ε → Except String Unit) (l : List ε) :
    (deliverLoop sink l).delivered ≤ l.length := by
  induction l with
  | nil => simp [deliverLoop]
  | cons e rest ih =>
    cases he : sink e with
    | ok u =>
      simp only [deliverLoop, he, List.length_cons]
      exact Nat.succ_le_succ ih
    | error msg => simp [deliverLoop, he]

theorem deliverLoop_take_all_ok (sink : ε → Except String Unit) (l : List ε) :
    (l.take (deliverLoop sink l).delivered).all (sinkOk sink) = true := by
  induction l with
  | nil => simp
  | cons e rest ih =>
    cases he : sink e with
    | ok u =>
      simp only [deliverLoop, he, List.take_succ_cons, List.all_cons,
        Bool.and_eq_true]
      exact ⟨by simp [sinkOk, he], ih⟩
    | error msg => simp [deliverLoop, he]

theorem deliverLoop_error_spec (sink : ε → Except String Unit) (l : List ε)
    (msg : String) (h : (deliverLoop sink l).errMsg = some msg) :
    ∃ hlt : (deliverLoop sink l).delivered < l.length,
      sink (l.get ⟨(deliverLoop sink l).delivered, hlt⟩) = .error msg := by
  induction l with
  | nil => simp [deliverLoop] at h
  | cons e rest ih =>
    cases he : sink e with
    | ok u =>
      simp only [deliverLoop, he] at h ⊢
      obtain ⟨hlt, hget⟩ := ih h
      exact ⟨Nat.succ_lt_succ hlt, hget⟩
    | error m =>
      simp only [deliverLoop, he, Option.some.injEq] at h ⊢
      subst h
      exact ⟨Nat.succ_pos _, he⟩

theorem deliverLoop_attempted (sink : ε → Except String Unit) (l : List ε) :
    (deliverLoop sink l).attempted =
      (deliverLoop sink l).delivered +
        (if (deliverLoop sink l).errMsg.isSome then 1 else 0) := by
  induction l with
  | nil => simp [deliverLoop]
  | cons e rest ih =>
    cases he : sink e with
    | ok u =>
      simp only [deliverLoop, he]
      omega
    | error msg => simp [deliverLoop, he]

theorem deliverLoop_failed_iff (sink : ε → Except String Unit) (l : List ε) :
    (deliverLoop sink l).failedFlag =
      (if (deliverLoop sink l).errMsg.isSome then 1 else 0) := by
  induction l with
  | nil => simp [deliverLoop]
  | cons e rest ih =>
    cases he : sink e with
    | ok u => simpa [deliverLoop, he] using ih
    | error msg => simp [deliverLoop, he]

theorem deliverLoop_no_error_all (sink : ε → Except String Unit) (l : List ε)
    (h : (deliverLoop sink l).errMsg = none) :
    (deliverLoop sink l).delivered = l.length := by
  induction l with
  | nil => simp [deliverLoop]
  | cons e rest ih =>
    cases he : sink e with
    | ok u =>
      simp only [deliverLoop, he] at h ⊢
      simp [ih h]
    | error m => simp [deliverLoop, he] at h

theorem toCursor_le (value : Option Int) (maxValue : Nat) :
    toCursor value maxValue ≤ maxValue := by
  unfold toCursor
  split
  · exact Nat.zero_le _
  · next hcond =>
    push_neg at hcond
    omega

theorem toCursor_id (n : Nat) (maxValue : Nat) (h : n ≤ maxValue) :
    toCursor (some (n : Int)) maxValue = n := by
  unfold toCursor
  split
  · next hcond =>
    simp only [Option.getD_some] at hcond
    rcases hcond with hneg | hgt
    · omega
    · exfalso
      exact absurd hgt (by exact_mod_cast Nat.not_lt.mpr h)
  · simp

theorem runChannel_cursorAfter_le (sink : ε → Except String Unit)
    (events : List ε) (stored : Option Int) (limit : Int) :
    (runChannel sink events stored limit).cursorAfter ≤ events.length := by
  unfold runChannel
  simp only
  have h1 : toCursor stored events.length ≤ events.length := toCursor_le _ _
  have h2 := deliverLoop_delivered_le sink (pendingOf events stored limit)
  have h3 : (pendingOf events stored limit).length ≤
      (events.drop (toCursor stored events.length)).length := by
    unfold pendingOf
    split
    · exact (List.length_take _ _).le.trans (Nat.min_le_right _ _)
    · exact Nat.le_refl _
  simp only [List.length_drop] at h3
  omega

theorem runChannel_cursorAfter_eq (sink : ε → Except String Unit)
    (events : List ε) (stored : Option Int) (limit : Int) :
    (runChannel sink events stored limit).cursorAfter =
      (runChannel sink events stored limit).cursorBefore +
        (runChannel sink events stored limit).delivered := rfl

theorem pendingOf_take_eq (events : List ε) (stored : Option Int) (limit : Int)
    (d : Nat) (hd : d ≤ (pendingOf events stored limit).length) :
    (pendingOf events stored limit).take d =
      (events.drop (toCursor stored events.length)).take d := by
  by_cases hl : 0 ≤ limit
  · simp only [pendingOf, if_pos hl] at hd ⊢
    rw [List.take_take]
    congr 1
    simp only [List.length_take] at hd
    omega
  · simp [pendingOf, if_neg hl]

/-- C4: per channel, across two consecutive delivery runs over the append-only
events sequence (`events`, then `events ++ ext`), the cursor never rewinds:
within a run `cursorAfter = cursorBefore + delivered`, the `delivered` events
are exactly the successfully delivered events taken in order from position
`cursorBefore` onward, the second run resumes exactly at the first run's final
cursor, and the cursor is non-decreasing across the two runs. -/
theorem delivery_cursor_monotone_no_skip (sink : ε → Except String Unit)
    (events ext : List ε) (stored : Option Int) (limit1 limit2 : Int) :
    (runChannel sink events stored limit1).cursorBefore ≤
        (runChannel sink events stored limit1).cursorAfter ∧
    (runChannel sink events stored limit1).cursorAfter =
        (runChannel sink events stored limit1).cursorBefore +
          (runChannel sink events stored limit1).delivered ∧
    ((events.drop (runChannel sink events stored limit1).cursorBefore).take
        (runChannel sink events stored limit1).delivered).all (sinkOk sink)
        = true ∧
    (runChannel sink (events ++ ext)
        (some ((runChannel sink events stored limit1).stateCursor : Int))
        limit2).cursorBefore =
      (runChannel sink events stored limit1).cursorAfter ∧
    (runChannel sink events stored limit1).cursorAfter ≤
      (runChannel sink (events ++ ext)
        (some ((runChannel sink events stored limit1).stateCursor : Int))
        limit2).cursorAfter := by
  have hcb : (runChannel sink events stored limit1).cursorBefore =
      toCursor stored events.length := rfl
  have hd : (runChannel sink events stored limit1).delivered =
      (deliverLoop sink (pendingOf events stored limit1)).delivered := rfl
  have hstate : (runChannel sink events stored limit1).stateCursor =
      (runChannel sink events stored limit1).cursorAfter := rfl
  have hfix : (runChannel sink (events ++ ext)
      (some ((runChannel sink events stored limit1).stateCursor : Int))
      limit2).cursorBefore = (runChannel sink events stored limit1).cursorAfter := by
    have hle : (runChannel sink events stored limit1).cursorAfter ≤
        (events ++ ext).length := by
      have := runChannel_cursorAfter_le sink events stored limit1
      simp only [List.length_append]
      omega
    have : (runChannel sink (events ++ ext)
        (some ((runChannel sink events stored limit1).stateCursor : Int))
        limit2).cursorBefore =
        toCursor (some ((runChannel sink events stored limit1).stateCursor : Int))
          (events ++ ext).length := rfl
    rw [this, hstate, toCursor_id _ _ hle]
  refine ⟨by rw [runChannel_cursorAfter_eq]; omega, runChannel_cursorAfter_eq _ _ _ _,
    ?_, hfix, ?_⟩
  · rw [hcb, hd,
      ← pendingOf_take_eq events stored limit1 _ (deliverLoop_delivered_le _ _)]
    exact deliverLoop_take_all_ok sink (pendingOf events stored limit1)
  · rw [runChannel_cursorAfter_eq sink (events ++ ext)
      (some ((runChannel sink events stored limit1).stateCursor : Int)) limit2, hfix]
    omega

/-- C8: in a channel run, the first sink failure stops the run: the error is
recorded as the channel's `lastError`, exactly one failing sink call is made
after the successful ones (no later pending event is attempted), every pending
event before the failure was delivered successfully, the failing event itself
is the one at index `delivered` of the pending slice, and the cursor advances
by exactly the number of successes (not past the failing event). -/
theorem delivery_first_failure_stops (sink : ε → Except String Unit)
    (events : List ε) (stored : Option Int) (limit : Int) (msg : String)
    (h : (runChannel sink events stored limit).errMsg = some msg) :
    (runChannel sink events stored limit).stateLastError = some msg ∧
    (runChannel sink events stored limit).failedFlag = 1 ∧
    (runChannel sink events stored limit).attempted =
      (runChannel sink events stored limit).delivered + 1 ∧
    (runChannel sink events stored limit).cursorAfter =
      (runChannel sink events stored limit).cursorBefore +
        (runChannel sink events stored limit).delivered ∧
    ((pendingOf events stored limit).take
        (runChannel sink events stored limit).delivered).all (sinkOk sink)
        = true ∧
    ∃ hlt : (runChannel sink events stored limit).delivered <
        (pendingOf events stored limit).length,
      sink ((pendingOf events stored limit).get
        ⟨(runChannel sink events stored limit).delivered, hlt⟩) =
        Except.error msg := by
  have herr : (runChannel sink events stored limit).errMsg =
      (deliverLoop sink (pendingOf events stored limit)).errMsg := rfl
  have hd : (runChannel sink events stored limit).delivered =
      (deliverLoop sink (pendingOf events stored limit)).delivered := rfl
  have hatt : (runChannel sink events stored limit).attempted =
      (deliverLoop sink (pendingOf events stored limit)).attempted := rfl
  have hff : (runChannel sink events stored limit).failedFlag =
      (deliverLoop sink (pendingOf events stored limit)).failedFlag := rfl
  have hstate : (runChannel sink events stored limit).stateLastError =
      (runChannel sink events stored limit).errMsg := rfl
  rw [herr] at h
  refine ⟨by rw [hstate, herr, h], ?_, ?_, runChannel_cursorAfter_eq _ _ _ _, ?_, ?_⟩
  · rw [hff, deliverLoop_failed_iff, h]
    rfl
  · rw [hatt, hd, deliverLoop_attempted, h]
    rfl
  · rw [hd]
    exact deliverLoop_take_all_ok sink (pendingOf events stored limit)
  · rw [hd]
    exact deliverLoop_error_spec sink (pendingOf events stored limit) msg h

/-- A concrete sink for the delivery witness: `true` delivers, `false` raises. -/
def witnessSink : Bool → Except String Unit :=
  fun b => if b then Except.ok () else Except.error "boom"

theorem delivery_first_failure_stops_witness :
    (runChannel witnessSink [true, false, true] none 10).errMsg = some "boom" ∧
    ((runChannel witnessSink [true, false, true] none 10).stateLastError =
        some "boom" ∧
      (runChannel witnessSink [true, false, true] none 10).failedFlag = 1 ∧
      (runChannel witnessSink [true, false, true] none 10).attempted =
        (runChannel witnessSink [true, false, true] none 10).delivered + 1 ∧
      (runChannel witnessSink [true, false, true] none 10).cursorAfter =
        (runChannel witnessSink [true, false, true] none 10).cursorBefore +
          (runChannel witnessSink [true, false, true] none 10).delivered ∧
      ((pendingOf [true, false, true] none 10).take
          (runChannel witnessSink [true, false, true] none 10).delivered).all
          (sinkOk witnessSink) = true ∧
      ∃ hlt : (runChannel witnessSink [true, false, true] none 10).delivered <
          (pendingOf [true, false, true] none 10).length,
        witnessSink ((pendingOf [true, false, true] none 10).get
          ⟨(runChannel witnessSink [true, false, true] none 10).delivered, hlt⟩) =
          Except.error "boom") :=
  ⟨rfl, delivery_first_failure_stops witnessSink [true, false, true] none 10 "boom" rfl⟩

/-- C2 (divergence witness): the file-system trace of `write_json` contains no
rename at all; instead the final path itself is opened for truncation and the
serialized document is written directly to it. -/
theorem write_json_direct_write_no_rename (parent p content : String) :
    ((writeJsonTrace parent p content).all (fun op => !op.isRename)) = true ∧
    FsOp.openTrunc p ∈ writeJsonTrace parent p content ∧
    FsOp.writeData p content ∈ writeJsonTrace parent p content := by
  refine ⟨rfl, ?_, ?_⟩ <;> simp [writeJsonTrace]

/-! ### Ledger reducer (`ledger.py`)

JSON values are embedded as `Json`; Python dict semantics (insertion-ordered,
update-in-place for existing keys) are modeled by association lists with
`getA`/`setA`.
-/

/-- A JSON value. Numbers are modeled as exact rationals. -/
inductive Json where
  | null
  | bool (b : Bool)
  | num (q : ℚ)
  | str (s : String)
  | arr (elems : List Json)
  | obj (kvs : List (String × Json))
  deriving Repr

/-- Dict lookup (`d.get(k)`): first binding for the key, if any. -/
def getA : List (String × α) → String → Option α
  | [], _ => none
  | (k', v') :: rest, k => if k' = k then some v' else getA rest k

/-- Dict assignment (`d[k] = v`): replace the first binding in place, else
append (Python dicts keep insertion order). -/
def setA : List (String × α) → String → α → List (String × α)
  | [], k, v => [(k, v)]
  | (k', v') :: rest, k, v =>
    if k' = k then (k', v) :: rest else (k', v') :: setA rest k v

theorem getA_setA_self (l : List (String × α)) (k : String) (v : α) :
    getA (setA l k v) k = some v := by
  induction l with
  | nil => simp [setA, getA]
  | cons p rest ih =>
    obtain ⟨k', v'⟩ := p
    by_cases h : k' = k
    · simp [setA, getA, h]
    · simp [setA, getA, h, ih]

theorem getA_setA_ne (l : List (String × α)) (k k' : String) (v : α)
    (h : k' ≠ k) : getA (setA l k v) k' = getA l k' := by
  induction l with
  | nil => simp [setA, getA, Ne.symm h]
  | cons p rest ih =>
    obtain ⟨k0, v0⟩ := p
    by_cases h0 : k0 = k
    · subst h0
      simp [setA, getA, Ne.symm h]
    · simp [setA, getA, h0, ih]

mutual

/-- The value assigned at one patch key by `deep_merge_inplace`: when both the
patch value and the existing value are dictionaries, recurse; otherwise the
patch value replaces the existing one (arrays replace wholesale). -/
def mergePatchVal : Json → Option Json → Json
  | Json.obj pv, some (Json.obj dv) => Json.obj (deepMergeObj dv pv)
  | v, _ => v

/-- `deep_merge_inplace(dst, patch)` from `ledger.py`, on the key-value lists
of two JSON objects: iterate the patch items in order and assign
`mergePatchVal` for each key. -/
def deepMergeObj (dst : List (String × Json)) : List (String × Json) → List (String × Json)
  | [] => dst
  | (k, v) :: rest => deepMergeObj (setA dst k (mergePatchVal v (getA dst k))) rest

end

theorem deepMergeObj_getA_none (dst patch : List (String × Json)) (k : String)
    (h : getA patch k = none) :
    getA (deepMergeObj dst patch) k = getA dst k := by
  induction patch generalizing dst with
  | nil => rfl
  | cons p rest ih =>
    obtain ⟨k0, v0⟩ := p
    simp only [getA] at h
    by_cases h0 : k0 = k
    · simp [h0] at h
    · rw [deepMergeObj, ih _ (by simpa [h0] using h),
        getA_setA_ne _ _ _ _ (fun hh => h0 hh.symm)]

theorem getA_eq_none_of_not_mem_keys (l : List (String × α)) (k : String)
    (h : k ∉ l.map Prod.fst) : getA l k = none := by
  induction l with
  | nil => rfl
  | cons p rest ih =>
    obtain ⟨k0, v0⟩ := p
    simp only [List.map_cons, List.mem_cons] at h
    push_neg at h
    have hne : ¬ k0 = k := fun hh => h.1 hh.symm
    simp [getA, hne, ih h.2]

theorem deepMergeObj_getA_some (dst patch : List (String × Json)) (k : String)
    (v : Json) (hN : (patch.map Prod.fst).Nodup) (h : getA patch k = some v) :
    getA (deepMergeObj dst patch) k = some (mergePatchVal v (getA dst k)) := by
  induction patch generalizing dst with
  | nil => simp [getA] at h
  | cons p rest ih =>
    obtain ⟨k0, v0⟩ := p
    simp only [List.map_cons, List.nodup_cons] at hN
    simp only [getA] at h
    by_cases h0 : k0 = k
    · subst h0
      simp only [if_pos, Option.some.injEq] at h
      subst h
      have hout : getA rest k0 = none :=
        getA_eq_none_of_not_mem_keys _ _ hN.1
      rw [deepMergeObj, deepMergeObj_getA_none _ _ _ hout, getA_setA_self]
    · simp only [if_neg h0] at h
      rw [deepMergeObj, ih _ hN.2 h,
        getA_setA_ne _ _ _ _ (fun hh => h0 hh.symm)]

/-- A correction event. `txId = ""` models a missing or non-string `txId`;
`ctype = ""` models a missing `type` (defaulted to `"patch"`). -/
structure Correction where
  txId : String
  ctype : String
  patch : Option Json
  deriving Repr

/-- A transaction object: the key-value list of its JSON dictionary. -/
abbrev TxObj := List (String × Json)

/-- The valid `txId` of a transaction: present, a string and non-empty
(`if not isinstance(tx_id, str) or not tx_id: continue`). -/
def txIdOf (t : TxObj) : Option String :=
  match getA t "txId" with
  | some (Json.str s) => if s = "" then none else some s
  | _ => none

/-- `str(tx.get("txId") or "")` for a transaction whose `txId` field is a
string or missing (the only shapes the data model allows). -/
def txIdStr (t : TxObj) : String :=
  match getA t "txId" with
  | some (Json.str s) => s
  | _ => ""

/-- The valid transaction ids, in insertion order. -/
def validIds (txs : List TxObj) : List String := txs.filterMap txIdOf

/-- State of the corrections replay: the ordered working copies keyed by
their original `txId`, the deleted-id set and the applied counter. -/
structure ReplayState where
  working : List (String × TxObj)
  deleted : List String
  applied : Nat
  deriving Repr

/-- `deleted.add(tx_id)` on the insertion-ordered set model. -/
def insertIfAbsent (l : List String) (s : String) : List String :=
  if s ∈ l then l else l ++ [s]

/-- Update the working copy registered under `id` in `tx_by_id`: the last
transaction with that original id (later duplicates overwrite the map entry). -/
def updateLastById (id : String) (f : TxObj → TxObj) :
    List (String × TxObj) → List (String × TxObj)
  | [] => []
  | (k, t) :: rest =>
    if k = id ∧ id ∉ rest.map Prod.fst then (k, f t) :: rest
    else (k, t) :: updateLastById id f rest

/-- One iteration of the corrections loop in `apply_corrections`: skip events
with an invalid or unknown `txId`; `patch` events deep-merge a non-empty
dictionary patch into the target working copy; `tombstone`/`delete` events
mark the id deleted; other types are ignored. A missing `type` defaults to
`"patch"`. -/
def corrStep (st : ReplayState) (evt : Correction) : ReplayState :=
  if evt.txId = "" then st
  else if evt.txId ∉ st.working.map Prod.fst then st
  else if evt.ctype = "" ∨ evt.ctype = "patch" then
    match evt.patch with
    | some (Json.obj pv) =>
      if pv.isEmpty then st
      else { st with
        working := updateLastById evt.txId (fun t => deepMergeObj t pv) st.working
        applied := st.applied + 1 }
    | _ => st
  else if evt.ctype = "tombstone" ∨ evt.ctype = "delete" then
    { st with
      deleted := insertIfAbsent st.deleted evt.txId
      applied := st.applied + 1 }
  else st

/-- The replay over all corrections, starting from the deep-copied working
map of the transactions with a valid `txId`. -/
def replayCore (txs : List TxObj) (corrs : List Correction) : ReplayState :=
  corrs.foldl corrStep
    { working := txs.filterMap (fun t => (txIdOf t).map (fun id => (id, t)))
      deleted := []
      applied := 0 }

/-- The reducer result `LedgerView`. -/
structure LedgerView where
  transactions : List TxObj
  deletedTxIds : List String
  appliedCorrections : Nat
  deriving Repr

/-- `apply_corrections(transactions, corrections, include_deleted)`. -/
def applyCorrections (txs : List TxObj) (corrs : List Correction)
    (includeDeleted : Bool) : LedgerView :=
  let st := replayCore txs corrs
  if includeDeleted then
    ⟨st.working.map Prod.snd, st.deleted, st.applied⟩
  else
    ⟨(st.working.map Prod.snd).filter
        (fun t => ¬ st.deleted.contains (txIdStr t)),
      st.deleted, st.applied⟩

theorem updateLastById_map_fst (id : String) (f : TxObj → TxObj)
    (l : List (String × TxObj)) :
    (updateLastById id f l).map Prod.fst = l.map Prod.fst := by
  induction l with
  | nil => rfl
  | cons p rest ih =>
    obtain ⟨k, t⟩ := p
    by_cases h : k = id ∧ id ∉ rest.map Prod.fst
    · simp [updateLastById, if_pos h]
    · simp [updateLastById, if_neg h, ih]

theorem corrStep_map_fst (st : ReplayState) (evt : Correction) :
    (corrStep st evt).working.map Prod.fst = st.working.map Prod.fst := by
  unfold corrStep
  repeat' split
  all_goals simp [updateLastById_map_fst]

theorem replayCore_map_fst (txs : List TxObj) (corrs : List Correction) :
    (replayCore txs corrs).working.map Prod.fst = validIds txs := by
  have base : ∀ (st : ReplayState) (l : List Correction),
      (l.foldl corrStep st).working.map Prod.fst = st.working.map Prod.fst := by
    intro st l
    induction l generalizing st with
    | nil => rfl
    | cons c rest ih => rw [List.foldl_cons, ih, corrStep_map_fst]
  rw [replayCore, base]
  unfold validIds
  induction txs with
  | nil => rfl
  | cons t rest ih =>
    rcases h : txIdOf t with _ | id
    · simpa [h] using ih
    · simpa [h] using ih

theorem corrStep_unknown (st : ReplayState) (evt : Correction)
    (h : evt.txId ∉ st.working.map Prod.fst) :
    corrStep st evt = st := by
  unfold corrStep
  by_cases h0 : evt.txId = ""
  · rw [if_pos h0]
  · rw [if_neg h0, if_pos h]

theorem insertIfAbsent_mem_mono (l : List String) (s x : String)
    (hx : x ∈ l) : x ∈ insertIfAbsent l s := by
  unfold insertIfAbsent
  split
  · exact hx
  · exact List.mem_append_left _ hx

theorem corrStep_deleted_mono (st : ReplayState) (evt : Correction)
    (x : String) (hx : x ∈ st.deleted) : x ∈ (corrStep st evt).deleted := by
  unfold corrStep
  repeat' split
  all_goals simp_all [insertIfAbsent_mem_mono]

theorem foldl_deleted_mono (st : ReplayState) (l : List Correction)
    (x : String) (hx : x ∈ st.deleted) : x ∈ (l.foldl corrStep st).deleted := by
  induction l generalizing st with
  | nil => exact hx
  | cons c rest ih => exact ih _ (corrStep_deleted_mono _ _ _ hx)

theorem empty_not_mem_validIds (txs : List TxObj) : "" ∉ validIds txs := by
  unfold validIds
  intro hmem
  rw [List.mem_filterMap] at hmem
  obtain ⟨t, _, hid⟩ := hmem
  unfold txIdOf at hid
  rcases hg : getA t "txId" with _ | j
  · rw [hg] at hid
    exact Option.noConfusion hid
  · rcases j with _ | b | q | s | es | kvs <;> rw [hg] at hid <;>
      simp only at hid <;> try exact Option.noConfusion hid
    rcases hs : decide (s = "") with _ | _
    · have : s ≠ "" := by simpa using hs
      rw [if_neg this] at hid
      exact this (Option.some.inj hid)
    · have : s = "" := by simpa using hs
      rw [if_pos this] at hid
      exact Option.noConfusion hid

theorem replayCore_append (txs : List TxObj) (pre post : List Correction) :
    replayCore txs (pre ++ post) =
      post.foldl corrStep (replayCore txs pre) := by
  unfold replayCore
  rw [List.foldl_append]

theorem insertIfAbsent_self (l : List String) (s : String) :
    s ∈ insertIfAbsent l s := by
  unfold insertIfAbsent
  split
  · assumption
  · simp

theorem applyCorrections_deleted_eq (txs : List TxObj) (corrs : List Correction)
    (b : Bool) :
    (applyCorrections txs corrs b).deletedTxIds = (replayCore txs corrs).deleted := by
  unfold applyCorrections
  cases b <;> rfl

theorem corrStep_patch (st : ReplayState) (c : Correction)
    (pv : List (String × Json)) (hid : c.txId ≠ "")
    (hty : c.ctype = "" ∨ c.ctype = "patch")
    (hp : c.patch = some (Json.obj pv)) (hne : pv.isEmpty = false)
    (hmem : c.txId ∈ st.working.map Prod.fst) :
    corrStep st c =
      { st with
        working := updateLastById c.txId (fun t => deepMergeObj t pv) st.working
        applied := st.applied + 1 } := by
  unfold corrStep
  rw [if_neg hid, if_neg (not_not_intro hmem), if_pos hty, hp]
  simp only
  rw [if_neg (by simp [hne])]

theorem corrStep_tombstone (st : ReplayState) (c : Correction)
    (hid : c.txId ≠ "")
    (hty : c.ctype = "tombstone" ∨ c.ctype = "delete")
    (hmem : c.txId ∈ st.working.map Prod.fst) :
    corrStep st c =
      { st with
        deleted := insertIfAbsent st.deleted c.txId
        applied := st.applied + 1 } := by
  have hnp : ¬ (c.ctype = "" ∨ c.ctype = "patch") := by
    rcases hty with h | h <;> rw [h] <;> simp
  unfold corrStep
  rw [if_neg hid, if_neg (not_not_intro hmem), if_neg hnp, if_pos hty]

/-- C3: the corrections reducer (`apply_corrections` with its shared
`deep_merge_inplace` routine): (i) an event whose `txId` does not occur among
the transactions is ignored; (ii) a `patch` event with a non-empty dictionary
patch rewrites exactly the working copy of the target transaction by
deep-merging the patch into it; (iii) in the deep merge each patch key gets
the recursive merge when both sides are dictionaries and plain replacement
otherwise (arrays replace wholesale), and keys absent from the patch are
untouched; (iv) `tombstone`/`delete` events mark the `txId` deleted; and
(v) with `includeDeleted = false` the returned transactions are exactly the
non-deleted working copies, which are positionally keyed by the valid input
transaction ids in original insertion order. -/
theorem apply_corrections_spec (txs : List TxObj) (corrs : List Correction) :
    (∀ pre c post b, corrs = pre ++ c :: post → c.txId ∉ validIds txs →
      applyCorrections txs corrs b = applyCorrections txs (pre ++ post) b) ∧
    (∀ pre c pv, c.ctype = "" ∨ c.ctype = "patch" →
      c.patch = some (Json.obj pv) → pv.isEmpty = false →
      c.txId ∈ validIds txs →
      (replayCore txs (pre ++ [c])).working =
        updateLastById c.txId (fun t => deepMergeObj t pv)
          (replayCore txs pre).working) ∧
    (∀ dst patch k v, (patch.map Prod.fst).Nodup → getA patch k = some v →
      getA (deepMergeObj dst patch) k = some (mergePatchVal v (getA dst k))) ∧
    (∀ dst patch k, getA patch k = none →
      getA (deepMergeObj dst patch) k = getA dst k) ∧
    (∀ dv pv, mergePatchVal (Json.obj pv) (some (Json.obj dv)) =
      Json.obj (deepMergeObj dv pv)) ∧
    (∀ (dv : Option Json) (v : Json), (∀ pv, v ≠ Json.obj pv) →
      mergePatchVal v dv = v) ∧
    (∀ c b, c ∈ corrs → c.ctype = "tombstone" ∨ c.ctype = "delete" →
      c.txId ∈ validIds txs →
      c.txId ∈ (applyCorrections txs corrs b).deletedTxIds) ∧
    ((applyCorrections txs corrs false).transactions =
      (applyCorrections txs corrs true).transactions.filter
        (fun t =>
          ¬ (applyCorrections txs corrs true).deletedTxIds.contains (txIdStr t))) ∧
    ((replayCore txs corrs).working.map Prod.fst = validIds txs) := by
  refine ⟨?_, ?_, ?_, ?_, ?_, ?_, ?_, ?_, replayCore_map_fst txs corrs⟩
  · intro pre c post b hsplit hnot
    have hmid : corrStep (replayCore txs pre) c = replayCore txs pre := by
      apply corrStep_unknown
      rw [replayCore_map_fst]
      exact hnot
    have : replayCore txs corrs = replayCore txs (pre ++ post) := by
      rw [hsplit, replayCore_append, replayCore_append, List.foldl_cons, hmid]
    unfold applyCorrections
    rw [this]
  · intro pre c pv hty hp hne hmem
    have hid : c.txId ≠ "" := by
      intro hh
      rw [hh] at hmem
      exact empty_not_mem_validIds txs hmem
    rw [replayCore_append, List.foldl_cons, List.foldl_nil,
      corrStep_patch _ _ _ hid hty hp hne
        (by rw [replayCore_map_fst]; exact hmem)]
  · intro dst patch k v hN h
    exact deepMergeObj_getA_some dst patch k v hN h
  · intro dst patch k h
    exact deepMergeObj_getA_none dst patch k h
  · intro dv pv
    rfl
  · intro dv v hv
    rcases v with _ | b | q | s | es | kvs
    · rfl
    · rfl
    · rfl
    · rfl
    · rfl
    · exact absurd rfl (hv kvs)
  · intro c b hc hty hmem
    have hid : c.txId ≠ "" := by
      intro hh
      rw [hh] at hmem
      exact empty_not_mem_validIds txs hmem
    obtain ⟨pre, post, hsplit⟩ := List.append_of_mem hc
    rw [applyCorrections_deleted_eq, hsplit, replayCore_append, List.foldl_cons]
    apply foldl_deleted_mono
    rw [corrStep_tombstone _ _ hid hty
      (by rw [replayCore_map_fst]; exact hmem)]
    exact insertIfAbsent_self _ _
  · unfold applyCorrections
    rfl

/-- Concrete inputs for the corrections-reducer witness. -/
def txW1 : TxObj :=
  [("txId", Json.str "T1"), ("merchant", Json.str "A"),
   ("tags", Json.arr [Json.str "x"])]

def txW2 : TxObj := [("txId", Json.str "T2")]

def corrW1 : Correction :=
  ⟨"T1", "patch",
    some (Json.obj [("merchant", Json.str "B"), ("tags", Json.arr [Json.str "y"])])⟩

def corrW2 : Correction := ⟨"T2", "tombstone", none⟩

def corrW3 : Correction := ⟨"T9", "patch", some (Json.obj [("merchant", Json.str "Z")])⟩

theorem apply_corrections_spec_witness :
    ("T9" ∉ validIds [txW1, txW2] ∧
      applyCorrections [txW1, txW2] [corrW1, corrW2, corrW3] false =
        applyCorrections [txW1, txW2] [corrW1, corrW2] false) ∧
    "T2" ∈ (applyCorrections [txW1, txW2] [corrW1, corrW2, corrW3] true).deletedTxIds ∧
    (applyCorrections [txW1, txW2] [corrW1, corrW2, corrW3] false).transactions =
      [[("txId", Json.str "T1"), ("merchant", Json.str "B"),
        ("tags", Json.arr [Json.str "y"])]] := by
  have hnot : "T9" ∉ validIds [txW1, txW2] := by decide
  refine ⟨⟨hnot, ?_⟩, ?_, rfl⟩
  · exact (apply_corrections_spec [txW1, txW2] [corrW1, corrW2, corrW3]).1
      [corrW1, corrW2] corrW3 [] false rfl hnot
  · exact (apply_corrections_spec [txW1, txW2]
      [corrW1, corrW2, corrW3]).2.2.2.2.2.2.1 corrW2 true
      (List.mem_cons_of_mem _ (List.mem_cons_self _ _))
      (Or.inl rfl) (by decide)

/-! ### Task engine (`automation.py`)

Timestamps (`availableAt`, `lockedAt`, ...) are embedded as integer epoch
seconds; the ISO strings the code stores compare identically for the fixed
second-precision `YYYY-MM-DDTHH:MM:SSZ` format it always writes.
-/

/-- A task of the queue document. `maxRetries` is a `Nat` because
`enqueue_task` stores `max(0, int(max_retries))`. -/
structure Task where
  taskId : String
  taskType : String
  status : String
  attempts : Nat
  maxRetries : Nat
  availableAt : Int
  createdAt : Int
  updatedAt : Int
  lockedAt : Option Int
  workerId : Option String
  finishedAt : Option Int
  errMsg : Option String
  result : Option String
  source : String
  deriving Repr, DecidableEq

/-- `enqueue_task`: the freshly appended task record. -/
def mkTask (tid ty : String) (runAt : Int) (maxRetries : Int) (now : Int)
    (src : String) : Task :=
  { taskId := tid
    taskType := ty
    status := "queued"
    attempts := 0
    maxRetries := (max 0 maxRetries).toNat
    availableAt := runAt
    createdAt := now
    updatedAt := now
    lockedAt := none
    workerId := none
    finishedAt := none
    errMsg := none
    result := none
    source := src }

/-- `enqueue_task(layout, task_type, payload, run_at, max_retries, source)`:
append the new `queued` task to the queue document. -/
def enqueueTask (tasks : List Task) (tid ty : String) (runAt : Int)
    (maxRetries : Int) (now : Int) (src : String) : List Task :=
  tasks ++ [mkTask tid ty runAt maxRetries now src]

/-- `stale_running(x)` inside `_claim_next_task`: a running task whose lease
has expired (`now - locked_at > lock_ttl` with `lock_ttl = max(1, ttl)`);
a missing `lockedAt` parses to `now` and is therefore never stale. -/
def staleRunning (now lockTtl : Int) (t : Task) : Bool :=
  t.status == "running" && decide (max 1 lockTtl < now - t.lockedAt.getD now)

/-- The candidate test of the claim loop: status `queued`, or `running` with
an expired lease — and in all cases `availableAt <= now`. -/
def isCandidate (now lockTtl : Int) (t : Task) : Bool :=
  (t.status == "queued" || (t.status == "running" && staleRunning now lockTtl t))
    && decide (t.availableAt ≤ now)

/-- Ordering of candidates by `availableAt` (the code sorts the ISO strings,
which orders identically). -/
def availLE (a b : Task) : Prop := a.availableAt ≤ b.availableAt

instance : DecidableRel availLE := fun a b =>
  inferInstanceAs (Decidable (a.availableAt ≤ b.availableAt))

instance : IsTotal Task availLE := ⟨fun a b => Int.le_total a.availableAt b.availableAt⟩

instance : IsTrans Task availLE := ⟨fun _ _ _ hab hbc => le_trans hab hbc⟩

/-- Update the first element satisfying `p` in place (the `for row in tasks:
... break` rewrite pattern). -/
def updateFirst (p : α → Bool) (f : α → α) : List α → List α
  | [] => []
  | x :: rest => if p x then f x :: rest else x :: updateFirst p f rest

/-- The in-place mutation a successful claim applies to the chosen row. -/
def claimXform (now : Int) (w : String) (t : Task) : Task :=
  { t with
    status := "running"
    lockedAt := some now
    workerId := some w
    updatedAt := now
    attempts := t.attempts + 1 }

/-- `_claim_next_task(layout, worker_id, lock_ttl_seconds)`: filter the
candidates, sort them by `availableAt` (stable), pick the head, mark it
running (`lockedAt`, `workerId`, `attempts += 1`) and return the updated row
together with the rewritten queue. -/
def claimNextTask (tasks : List Task) (now lockTtl : Int) (w : String) :
    Option Task × List Task :=
  match ((tasks.filter (isCandidate now lockTtl)).insertionSort availLE).head? with
  | none => (none, tasks)
  | some picked =>
    ((updateFirst (fun t => t.taskId == picked.taskId) (claimXform now w)
        tasks).find? (fun t => t.taskId == picked.taskId),
      updateFirst (fun t => t.taskId == picked.taskId) (claimXform now w) tasks)

/-- The in-place mutation `_finish_task` applies to the matching row. -/
def finishXform (now : Int) (status : String) (result errM : Option String)
    (retryDelay : Int) (t : Task) : Task :=
  let t1 := { t with status := status, updatedAt := now }
  let t2 := match result with
    | some r => { t1 with result := some r }
    | none => t1
  let t3 := match errM with
    | some e => { t2 with errMsg := some e }
    | none => t2
  let t4 := if status == "queued" && decide (0 < retryDelay) then
      { t3 with availableAt := now + retryDelay, lockedAt := none, workerId := none }
    else t3
  if status == "done" || status == "failed" then { t4 with finishedAt := some now }
  else t4

/-- `_finish_task(layout, task_id, status, result, error, retry_delay_seconds)`:
rewrite the first row with the given id and return it. -/
def finishTask (tasks : List Task) (tid status : String)
    (result errM : Option String) (retryDelay : Int) (now : Int) :
    Option Task × List Task :=
  ((updateFirst (fun t => t.taskId == tid)
      (finishXform now status result errM retryDelay) tasks).find?
      (fun t => t.taskId == tid),
    updateFirst (fun t => t.taskId == tid)
      (finishXform now status result errM retryDelay) tasks)

/-- Outcome reported by `run_next_task`. -/
inductive RunOutcome where
  | idle
  | doneRun
  | retryScheduled
  | failedRun
  deriving Repr, DecidableEq

/-- `run_next_task`: claim the next task (idle when none); execute it via the
task-type executor (abstracted as `exec`); on success finish `done`; on an
executor exception retry with exponential backoff `2^max(0, attempts-1)`
while `attempts <= maxRetries`, else finish `failed`. -/
def runNextTask (tasks : List Task) (now lockTtl : Int) (w : String)
    (exec : Task → Except String String) : RunOutcome × List Task :=
  match claimNextTask tasks now lockTtl w with
  | (none, tasks') => (RunOutcome.idle, tasks')
  | (some task, tasks') =>
    match exec task with
    | Except.ok res =>
      (RunOutcome.doneRun, (finishTask tasks' task.taskId "done" (some res) none 0 now).2)
    | Except.error e =>
      let attempts : Nat := if task.attempts = 0 then 1 else task.attempts
      if attempts ≤ task.maxRetries then
        (RunOutcome.retryScheduled,
          (finishTask tasks' task.taskId "queued" none (some e)
            ((2 : Int) ^ (attempts - 1)) now).2)
      else
        (RunOutcome.failedRun,
          (finishTask tasks' task.taskId "failed" none (some e) 0 now).2)

/-- Modelled from the spec: `list_dead_letters` is referenced by the HTTP
surface (`api_automation_dead_letters` in `server.py`), the CLI and the tests
but its definition is not among the sources. Per the spec, `failed` terminal
tasks are "additionally projected to a dead-letter view (or dedicated file)
for observability" and a dead letter is "a terminally failed task retained
for operational inspection": the view is the failed tasks of the queue. -/
def listDeadLetters (tasks : List Task) : List Task :=
  tasks.filter (fun t => t.status == "failed")

theorem updateFirst_map_key (g : α → β) (p : α → Bool) (f : α → α)
    (hpres : ∀ x, p x = true → g (f x) = g x) (l : List α) :
    (updateFirst p f l).map g = l.map g := by
  induction l with
  | nil => rfl
  | cons x rest ih =>
    by_cases h : p x = true
    · simp [updateFirst, h, hpres x h]
    · simp only [updateFirst, if_neg h, List.map_cons, ih]

theorem taskId_mem_of_nodup_head (x t0 : Task) (rest : List Task)
    (hne : x.taskId = t0.taskId) (h : t0 ∈ rest)
    (hN : x.taskId ∉ rest.map Task.taskId) : False :=
  hN (hne ▸ (List.mem_map.mpr ⟨t0, h, hne ▸ rfl⟩))

theorem updateFirst_find?_of_nodup (l : List Task) (t0 : Task) (f : Task → Task)
    (hmem : t0 ∈ l) (hN : (l.map Task.taskId).Nodup)
    (hid : (f t0).taskId = t0.taskId) :
    (updateFirst (fun t => t.taskId == t0.taskId) f l).find?
      (fun t => t.taskId == t0.taskId) = some (f t0) := by
  induction l with
  | nil => cases hmem
  | cons x rest ih =>
    simp only [List.map_cons, List.nodup_cons] at hN
    rcases List.mem_cons.mp hmem with h | h
    · subst h
      simp [updateFirst, List.find?, hid]
    · have hne : ¬ x.taskId = t0.taskId := fun hh =>
        taskId_mem_of_nodup_head x t0 rest hh h hN.1
      simp only [updateFirst, beq_iff_eq, if_neg hne]
      rw [List.find?_cons_of_neg _ (by simpa using hne)]
      exact ih h hN.2

theorem mem_updateFirst_of_nodup (l : List Task) (t0 : Task) (f : Task → Task)
    (hmem : t0 ∈ l) (hN : (l.map Task.taskId).Nodup) :
    ∀ u ∈ updateFirst (fun t => t.taskId == t0.taskId) f l, u ∈ l ∨ u = f t0 := by
  induction l with
  | nil => intro u hu; cases hu
  | cons x rest ih =>
    simp only [List.map_cons, List.nodup_cons] at hN
    intro u hu
    rcases List.mem_cons.mp hmem with h | h
    · subst h
      simp only [updateFirst, beq_self_eq_true, if_pos] at hu
      rcases List.mem_cons.mp hu with h1 | h1
      · exact Or.inr h1
      · exact Or.inl (List.mem_cons_of_mem _ h1)
    · have hne : ¬ x.taskId = t0.taskId := fun hh =>
        taskId_mem_of_nodup_head x t0 rest hh h hN.1
      simp only [updateFirst, beq_iff_eq, if_neg hne] at hu
      rcases List.mem_cons.mp hu with h1 | h1
      · exact Or.inl (h1 ▸ List.mem_cons_self _ _)
      · rcases ih h hN.2 u h1 with h2 | h2
        · exact Or.inl (List.mem_cons_of_mem _ h2)
        · exact Or.inr h2

theorem claimXform_taskId (now : Int) (w : String) (t : Task) :
    (claimXform now w t).taskId = t.taskId := rfl

theorem finishXform_taskId (now : Int) (status : String)
    (result errM : Option String) (retryDelay : Int) (t : Task) :
    (finishXform now status result errM retryDelay t).taskId = t.taskId := by
  unfold finishXform
  rcases result with _ | r <;> rcases errM with _ | e <;>
    simp only <;> split <;> split <;> rfl

theorem claimNextTask_none_iff (tasks : List Task) (now lockTtl : Int)
    (w : String) :
    (claimNextTask tasks now lockTtl w).1 = none ↔
      tasks.filter (isCandidate now lockTtl) = [] := by
  unfold claimNextTask
  rcases hh : ((tasks.filter (isCandidate now lockTtl)).insertionSort availLE).head?
    with _ | picked
  · simp only [hh]
    constructor
    · intro _
      have hnil : (tasks.filter (isCandidate now lockTtl)).insertionSort availLE = [] := by
        cases hcase : (tasks.filter (isCandidate now lockTtl)).insertionSort availLE with
        | nil => rfl
        | cons a l => rw [hcase] at hh; exact Option.noConfusion hh
      have hperm := List.perm_insertionSort availLE (tasks.filter (isCandidate now lockTtl))
      rw [hnil] at hperm
      exact (hperm.symm.eq_nil)
    · intro _
      trivial
  · simp only [hh]
    constructor
    · intro hcontra
      exfalso
      have hpicked : picked ∈ tasks.filter (isCandidate now lockTtl) :=
        (List.perm_insertionSort availLE _).mem_iff.mp (List.mem_of_mem_head? hh)
      have hmem : picked ∈ tasks := (List.mem_filter.mp hpicked).1
      have hids : (updateFirst (fun t => t.taskId == picked.taskId)
          (claimXform now w) tasks).map Task.taskId = tasks.map Task.taskId :=
        updateFirst_map_key _ _ _ (fun x _ => claimXform_taskId now w x) tasks
      have hid_mem : picked.taskId ∈ (updateFirst (fun t => t.taskId == picked.taskId)
          (claimXform now w) tasks).map Task.taskId := by
        rw [hids]
        exact List.mem_map.mpr ⟨picked, hmem, rfl⟩
      obtain ⟨u, hu, hueq⟩ := List.mem_map.mp hid_mem
      have := List.find?_eq_none.mp hcontra u hu
      simp [hueq] at this
    · intro hfil
      exfalso
      rw [hfil] at hh
      simp [List.insertionSort] at hh

/-- The queued-and-available candidate test the claim (C5) asserts: a stale
running task would be claimable regardless of its `availableAt`. -/
def claimedCandidate (now lockTtl : Int) (t : Task) : Prop :=
  (t.status = "queued" ∧ t.availableAt ≤ now) ∨
    (t.status = "running" ∧ max 1 lockTtl < now - t.lockedAt.getD now)

/-- A concrete running task whose lease has expired but whose `availableAt`
lies in the future. -/
def staleTask : Task :=
  { taskId := "tsk_stale"
    taskType := "build"
    status := "running"
    attempts := 1
    maxRetries := 2
    availableAt := 1000
    createdAt := 0
    updatedAt := 0
    lockedAt := some 0
    workerId := some "w0"
    finishedAt := none
    errMsg := none
    result := none
    source := "manual" }

/-- C5 counterexample: at `now = 500` with `lockTtlSeconds = 300`, `staleTask`
is running with an expired lease (`now - lockedAt = 500 > 300`), so under the
claim it belongs to the candidate set (being the only task it would be
chosen); but its `availableAt = 1000 > now`, and `_claim_next_task` returns
nothing: the code also requires `availableAt <= now` for lease-expired
running tasks. -/
theorem claim_next_task_stale_future_counterexample :
    staleTask.status = "running" ∧
    staleRunning 500 300 staleTask = true ∧
    claimedCandidate 500 300 staleTask ∧
    500 < staleTask.availableAt ∧
    (claimNextTask [staleTask] 500 300 "w1").1 = none := by
  refine ⟨rfl, by decide, Or.inr (by decide), by decide, by decide⟩

/-- C5 (amended): the candidate set of `_claim_next_task` is exactly the
tasks with (`status = queued` or (`status = running` and an expired lease))
and `availableAt <= now` — the `availableAt <= now` condition applies to
lease-expired running tasks as well — and among the candidates one with the
smallest `availableAt` is claimed (marked running with `attempts + 1`). -/
theorem claim_next_task_spec (tasks : List Task) (now lockTtl : Int)
    (w : String) (hN : (tasks.map Task.taskId).Nodup) :
    ((claimNextTask tasks now lockTtl w).1 = none ↔
      tasks.filter (isCandidate now lockTtl) = []) ∧
    (∀ t ∈ tasks, isCandidate now lockTtl t = true ↔
      ((t.status = "queued" ∨
        (t.status = "running" ∧ max 1 lockTtl < now - t.lockedAt.getD now)) ∧
        t.availableAt ≤ now)) ∧
    (∀ u, (claimNextTask tasks now lockTtl w).1 = some u →
      ∃ t0 ∈ tasks, isCandidate now lockTtl t0 = true ∧
        u = claimXform now w t0 ∧
        ∀ c ∈ tasks, isCandidate now lockTtl c = true →
          t0.availableAt ≤ c.availableAt) := by
  refine ⟨claimNextTask_none_iff tasks now lockTtl w, ?_, ?_⟩
  · intro t _
    unfold isCandidate staleRunning
    simp only [Bool.and_eq_true, Bool.or_eq_true, beq_iff_eq, decide_eq_true_eq]
    constructor
    · rintro ⟨hq | ⟨hr, _, hstale⟩, hav⟩
      · exact ⟨Or.inl hq, hav⟩
      · exact ⟨Or.inr ⟨hr, hstale⟩, hav⟩
    · rintro ⟨hq | ⟨hr, hstale⟩, hav⟩
      · exact ⟨Or.inl hq, hav⟩
      · exact ⟨Or.inr ⟨hr, hr, hstale⟩, hav⟩
  · intro u hu
    unfold claimNextTask at hu
    rcases hh : ((tasks.filter (isCandidate now lockTtl)).insertionSort availLE).head?
      with _ | picked
    · rw [hh] at hu
      exact Option.noConfusion hu
    · rw [hh] at hu
      simp only at hu
      have hpicked : picked ∈ tasks.filter (isCandidate now lockTtl) :=
        (List.perm_insertionSort availLE _).mem_iff.mp (List.mem_of_mem_head? hh)
      have hmem : picked ∈ tasks := (List.mem_filter.mp hpicked).1
      have hcand : isCandidate now lockTtl picked = true :=
        (List.mem_filter.mp hpicked).2
      have hfind := updateFirst_find?_of_nodup tasks picked (claimXform now w)
        hmem hN (claimXform_taskId now w picked)
      rw [hfind] at hu
      refine ⟨picked, hmem, hcand, (Option.some.inj hu).symm, ?_⟩
      intro c hc hccand
      have hcs : c ∈ (tasks.filter (isCandidate now lockTtl)).insertionSort availLE :=
        (List.perm_insertionSort availLE _).mem_iff.mpr
          (List.mem_filter.mpr ⟨hc, hccand⟩)
      have hsorted := List.sorted_insertionSort availLE
        (tasks.filter (isCandidate now lockTtl))
      cases hcase : (tasks.filter (isCandidate now lockTtl)).insertionSort availLE with
      | nil => rw [hcase] at hcs; cases hcs
      | cons b tail =>
        rw [hcase] at hh hcs hsorted
        have hb : b = picked := Option.some.inj hh
        subst hb
        rcases List.mem_cons.mp hcs with h1 | h1
        · rw [h1]
        · exact List.rel_of_sorted_cons hsorted c h1

/-- Two concrete queued tasks for the claim witness. -/
def tskA : Task :=
  { staleTask with
    taskId := "tsk_a"
    status := "queued"
    availableAt := 5
    lockedAt := none
    workerId := none
    attempts := 0 }

def tskB : Task :=
  { staleTask with
    taskId := "tsk_b"
    status := "queued"
    availableAt := 3
    lockedAt := none
    workerId := none
    attempts := 0 }

theorem claim_next_task_spec_witness :
    ((tskA :: [tskB]).map Task.taskId).Nodup ∧
    (claimNextTask [tskA, tskB] 10 300 "w").1 = some (claimXform 10 "w" tskB) ∧
    (∃ t0 ∈ [tskA, tskB], isCandidate 10 300 t0 = true ∧
      claimXform 10 "w" tskB = claimXform 10 "w" t0 ∧
      ∀ c ∈ [tskA, tskB], isCandidate 10 300 c = true →
        t0.availableAt ≤ c.availableAt) := by
  refine ⟨by decide, by decide, ?_⟩
  exact (claim_next_task_spec [tskA, tskB] 10 300 "w" (by decide)).2.2
    (claimXform 10 "w" tskB) (by decide)

theorem claimXform_attempts (now : Int) (w : String) (t : Task) :
    (claimXform now w t).attempts = t.attempts + 1 := rfl

theorem claimXform_maxRetries (now : Int) (w : String) (t : Task) :
    (claimXform now w t).maxRetries = t.maxRetries := rfl

theorem finishXform_status (now : Int) (st : String) (r e : Option String)
    (d : Int) (t : Task) : (finishXform now st r e d t).status = st := by
  unfold finishXform
  rcases r with _ | r <;> rcases e with _ | e <;> simp only <;>
    by_cases h1 : (st == "queued" && decide (0 < d)) = true <;>
      by_cases h2 : (st == "done" || st == "failed") = true <;>
        simp [h1, h2]

theorem finishXform_attempts (now : Int) (st : String) (r e : Option String)
    (d : Int) (t : Task) : (finishXform now st r e d t).attempts = t.attempts := by
  unfold finishXform
  rcases r with _ | r <;> rcases e with _ | e <;> simp only <;>
    by_cases h1 : (st == "queued" && decide (0 < d)) = true <;>
      by_cases h2 : (st == "done" || st == "failed") = true <;>
        simp [h1, h2]

theorem finishXform_maxRetries (now : Int) (st : String) (r e : Option String)
    (d : Int) (t : Task) :
    (finishXform now st r e d t).maxRetries = t.maxRetries := by
  unfold finishXform
  rcases r with _ | r <;> rcases e with _ | e <;> simp only <;>
    by_cases h1 : (st == "queued" && decide (0 < d)) = true <;>
      by_cases h2 : (st == "done" || st == "failed") = true <;>
        simp [h1, h2]

theorem finishXform_finishedAt_terminal (now : Int) (st : String)
    (r e : Option String) (d : Int) (t : Task)
    (h : st = "done" ∨ st = "failed") :
    (finishXform now st r e d t).finishedAt = some now := by
  have hcond : (st == "done" || st == "failed") = true := by
    rcases h with h | h <;> rw [h] <;> rfl
  unfold finishXform
  rcases r with _ | r <;> rcases e with _ | e <;> simp only <;>
    rw [if_pos hcond]

theorem updateFirst_updateFirst (p : α → Bool) (f g : α → α)
    (hpres : ∀ x, p x = true → p (f x) = true) (l : List α) :
    updateFirst p g (updateFirst p f l) = updateFirst p (fun x => g (f x)) l := by
  induction l with
  | nil => rfl
  | cons x rest ih =>
    by_cases hx : p x = true
    · simp [updateFirst, hx, hpres x hx]
    · simp only [updateFirst, if_neg hx, ih]

theorem claimNextTask_cases (tasks : List Task) (now lockTtl : Int)
    (w : String) (hN : (tasks.map Task.taskId).Nodup) :
    claimNextTask tasks now lockTtl w = (none, tasks) ∨
    ∃ t0 ∈ tasks, isCandidate now lockTtl t0 = true ∧
      claimNextTask tasks now lockTtl w =
        (some (claimXform now w t0),
          updateFirst (fun t => t.taskId == t0.taskId) (claimXform now w) tasks) := by
  rcases hh : ((tasks.filter (isCandidate now lockTtl)).insertionSort availLE).head?
    with _ | picked
  · apply Or.inl
    unfold claimNextTask
    rw [hh]
  · have hpicked : picked ∈ tasks.filter (isCandidate now lockTtl) :=
      (List.perm_insertionSort availLE _).mem_iff.mp (List.mem_of_mem_head? hh)
    have hmem : picked ∈ tasks := (List.mem_filter.mp hpicked).1
    have hcand : isCandidate now lockTtl picked = true :=
      (List.mem_filter.mp hpicked).2
    refine Or.inr ⟨picked, hmem, hcand, ?_⟩
    unfold claimNextTask
    rw [hh]
    simp only [Prod.mk.injEq]
    exact ⟨updateFirst_find?_of_nodup tasks picked (claimXform now w) hmem hN
      (claimXform_taskId now w picked), trivial⟩

/-- The per-task part of the C9 invariant. -/
def TaskOk (t : Task) : Prop :=
  t.attempts ≤ t.maxRetries + 1 ∧
    ((t.status = "done" ∨ t.status = "failed") → t.finishedAt.isSome = true)

/-- The strengthened per-task invariant carried through the induction: queued
tasks still have a retry budget left, and between engine steps (every claim
being immediately followed by a finish) no task is left `running`. -/
def TaskStrong (t : Task) : Prop :=
  TaskOk t ∧ (t.status = "queued" → t.attempts ≤ t.maxRetries) ∧
    t.status ≠ "running"

/-- The queue-document invariant: distinct task ids (ids are freshly minted
ULIDs) and every task strong. -/
def DocOk (tasks : List Task) : Prop :=
  (tasks.map Task.taskId).Nodup ∧ ∀ t ∈ tasks, TaskStrong t

theorem docOk_of_update (tasks : List Task) (t0 : Task) (g : Task → Task)
    (hN : (tasks.map Task.taskId).Nodup) (hmem : t0 ∈ tasks)
    (hgidall : ∀ x, (g x).taskId = x.taskId)
    (hstrong : TaskStrong (g t0))
    (hall : ∀ t ∈ tasks, TaskStrong t) :
    DocOk (updateFirst (fun t => t.taskId == t0.taskId) g tasks) := by
  constructor
  · rw [updateFirst_map_key Task.taskId _ _ (fun x _ => hgidall x)]
    exact hN
  · intro u hu
    rcases mem_updateFirst_of_nodup tasks t0 g hmem hN u hu with h1 | h1
    · exact hall u h1
    · exact h1 ▸ hstrong

theorem docOk_enqueue (tasks : List Task) (tid ty src : String)
    (runAt mr now : Int) (hfresh : tid ∉ tasks.map Task.taskId)
    (h : DocOk tasks) : DocOk (enqueueTask tasks tid ty runAt mr now src) := by
  constructor
  · unfold enqueueTask mkTask
    rw [List.map_append]
    rw [List.nodup_append]
    refine ⟨h.1, List.nodup_singleton _, ?_⟩
    intro a ha hb
    simp only [List.map_cons, List.map_nil, List.mem_singleton] at hb
    exact hfresh (hb ▸ ha)
  · intro t ht
    unfold enqueueTask at ht
    rcases List.mem_append.mp ht with h1 | h1
    · exact h.2 t h1
    · have : t = mkTask tid ty runAt mr now src := List.mem_singleton.mp h1
      subst this
      refine ⟨⟨by simp [mkTask], ?_⟩, ?_, ?_⟩
      · intro hc
        rcases hc with hc | hc <;> simp [mkTask] at hc
      · intro _
        simp [mkTask]
      · simp [mkTask]

theorem finish_after_claim (tasks : List Task) (t0 : Task)
    (now1 now2 : Int) (w : String) (st : String) (r e : Option String)
    (d : Int) :
    (finishTask
        (updateFirst (fun t => t.taskId == t0.taskId) (claimXform now1 w) tasks)
        (claimXform now1 w t0).taskId st r e d now2).2 =
      updateFirst (fun t => t.taskId == t0.taskId)
        (fun x => finishXform now2 st r e d (claimXform now1 w x)) tasks := by
  unfold finishTask
  exact updateFirst_updateFirst (fun t => t.taskId == t0.taskId)
    (claimXform now1 w) (finishXform now2 st r e d) (fun x hx => hx) tasks

theorem docOk_runNext (tasks : List Task) (now lockTtl : Int) (w : String)
    (exec : Task → Except String String) (h : DocOk tasks) :
    DocOk (runNextTask tasks now lockTtl w exec).2 := by
  rcases claimNextTask_cases tasks now lockTtl w h.1 with heq | ⟨t0, hmem, hcand, heq⟩
  · unfold runNextTask
    rw [heq]
    exact h
  · have hstat : t0.status = "queued" := by
      have hs := (h.2 t0 hmem).2.2
      unfold isCandidate at hcand
      simp only [Bool.and_eq_true, Bool.or_eq_true, beq_iff_eq] at hcand
      rcases hcand.1 with hq | ⟨hr, _⟩
      · exact hq
      · exact absurd hr hs
    have hatt : t0.attempts ≤ t0.maxRetries := (h.2 t0 hmem).2.1 hstat
    unfold runNextTask
    rw [heq]
    cases hex : exec (claimXform now w t0) with
    | ok res =>
      simp only [hex]
      rw [finish_after_claim]
      apply docOk_of_update tasks t0 _ h.1 hmem
        (fun x => by rw [finishXform_taskId, claimXform_taskId]) ?_ h.2
      refine ⟨⟨?_, ?_⟩, ?_, ?_⟩
      · rw [finishXform_attempts, claimXform_attempts, finishXform_maxRetries,
          claimXform_maxRetries]
        omega
      · intro _
        rw [finishXform_finishedAt_terminal _ _ _ _ _ _ (Or.inl rfl)]
        rfl
      · intro hq
        rw [finishXform_status] at hq
        exact absurd hq (by decide)
      · rw [finishXform_status]
        decide
    | error err =>
      simp only [hex]
      have hattred : (if (claimXform now w t0).attempts = 0 then 1
          else (claimXform now w t0).attempts) = t0.attempts + 1 := by
        rw [claimXform_attempts]
        simp
      rw [hattred, claimXform_maxRetries]
      by_cases hle : t0.attempts + 1 ≤ t0.maxRetries
      · rw [if_pos hle]
        simp only
        rw [finish_after_claim]
        apply docOk_of_update tasks t0 _ h.1 hmem
          (fun x => by rw [finishXform_taskId, claimXform_taskId]) ?_ h.2
        refine ⟨⟨?_, ?_⟩, ?_, ?_⟩
        · rw [finishXform_attempts, claimXform_attempts, finishXform_maxRetries,
            claimXform_maxRetries]
          omega
        · intro hterm
          rw [finishXform_status] at hterm
          rcases hterm with hterm | hterm <;> exact absurd hterm (by decide)
        · intro _
          rw [finishXform_attempts, claimXform_attempts, finishXform_maxRetries,
            claimXform_maxRetries]
          exact hle
        · rw [finishXform_status]
          decide
      · rw [if_neg hle]
        simp only
        rw [finish_after_claim]
        apply docOk_of_update tasks t0 _ h.1 hmem
          (fun x => by rw [finishXform_taskId, claimXform_taskId]) ?_ h.2
        refine ⟨⟨?_, ?_⟩, ?_, ?_⟩
        · rw [finishXform_attempts, claimXform_attempts, finishXform_maxRetries,
            claimXform_maxRetries]
          omega
        · intro _
          rw [finishXform_finishedAt_terminal _ _ _ _ _ _ (Or.inr rfl)]
          rfl
        · intro hq
          rw [finishXform_status] at hq
          exact absurd hq (by decide)
        · rw [finishXform_status]
          decide

/-- One engine operation on the queue document: enqueue a task with a fresh
id, or `run_next_task` (a claim immediately followed by a finish). -/
inductive QStep : List Task → List Task → Prop where
  | enqueue : ∀ (tasks : List Task) (tid ty src : String) (runAt mr now : Int),
      tid ∉ tasks.map Task.taskId →
      QStep tasks (enqueueTask tasks tid ty runAt mr now src)
  | runNext : ∀ (tasks : List Task) (now lockTtl : Int) (w : String)
      (exec : Task → Except String String),
      QStep tasks (runNextTask tasks now lockTtl w exec).2

/-- Queue documents reachable from the empty queue by engine operations. -/
def QReach (tasks : List Task) : Prop := Relation.ReflTransGen QStep [] tasks

theorem docOk_of_reach (tasks : List Task) (h : QReach tasks) : DocOk tasks := by
  induction h with
  | refl => exact ⟨List.nodup_nil, by intro t ht; cases ht⟩
  | tail hab hbc ih =>
    cases hbc with
    | enqueue tid ty src runAt mr noww hfresh =>
      exact docOk_enqueue _ _ _ _ _ _ _ hfresh ih
    | runNext noww ttl w exec =>
      exact docOk_runNext _ _ _ _ _ ih

/-- C9: on every queue document reachable through `enqueue_task` and
`run_next_task` (claims always immediately followed by a finish), every
task's `attempts` never exceeds `maxRetries + 1`, and every terminal
(`done` or `failed`) task has `finishedAt` set. -/
theorem task_engine_invariant (tasks : List Task) (h : QReach tasks) :
    ∀ t ∈ tasks, t.attempts ≤ t.maxRetries + 1 ∧
      ((t.status = "done" ∨ t.status = "failed") → t.finishedAt.isSome = true) := by
  intro t ht
  exact ((docOk_of_reach tasks h).2 t ht).1

/-- An executor that always raises. -/
def execFail : Task → Except String String := fun _ => Except.error "boom"

/-- Queue documents of the witness trace: enqueue with `maxRetries = 1`, then
two failing runs (first retry, then terminal failure). -/
def qW0 : List Task := enqueueTask [] "tsk_1" "build" 0 1 0 "manual"

def qW1 : List Task := (runNextTask qW0 10 300 "w" execFail).2

def qW2 : List Task := (runNextTask qW1 20 300 "w" execFail).2

theorem claimXform_taskType (now : Int) (w : String) (t : Task) :
    (claimXform now w t).taskType = t.taskType := rfl

theorem finishXform_taskType (now : Int) (st : String) (r e : Option String)
    (d : Int) (t : Task) :
    (finishXform now st r e d t).taskType = t.taskType := by
  unfold finishXform
  rcases r with _ | r <;> rcases e with _ | e <;> simp only <;>
    by_cases h1 : (st == "queued" && decide (0 < d)) = true <;>
      by_cases h2 : (st == "done" || st == "failed") = true <;>
        simp [h1, h2]

theorem finishXform_availableAt_retry (now : Int) (e : String) (d : Int)
    (t : Task) (hd : 0 < d) :
    (finishXform now "queued" none (some e) d t).availableAt = now + d := by
  have houter : ¬ (("queued" == "done" || "queued" == "failed") = true) := by decide
  have hinner : ("queued" == "queued" && decide (0 < d)) = true := by simp [hd]
  unfold finishXform
  simp only
  rw [if_neg houter, if_pos hinner]

theorem claimNextTask_singleton_queued (t : Task) (now lockTtl : Int)
    (w : String) (hstatus : t.status = "queued") (havail : t.availableAt ≤ now) :
    claimNextTask [t] now lockTtl w =
      (some (claimXform now w t), [claimXform now w t]) := by
  have hcand : isCandidate now lockTtl t = true := by
    unfold isCandidate
    simp [hstatus, havail]
  unfold claimNextTask
  have hfilter : [t].filter (isCandidate now lockTtl) = [t] := by
    simp [List.filter_cons, hcand]
  rw [hfilter]
  simp [List.insertionSort, List.orderedInsert, updateFirst, List.find?,
    claimXform_taskId]

theorem runNextTask_singleton_retry (t : Task) (now ttl : Int) (w e : String)
    (hstatus : t.status = "queued") (havail : t.availableAt ≤ now)
    (hle : t.attempts + 1 ≤ t.maxRetries) :
    runNextTask [t] now ttl w (fun _ => Except.error e) =
      (RunOutcome.retryScheduled,
        [finishXform now "queued" none (some e) ((2 : Int) ^ t.attempts)
          (claimXform now w t)]) := by
  unfold runNextTask
  rw [claimNextTask_singleton_queued t now ttl w hstatus havail]
  simp only [claimXform_attempts, claimXform_maxRetries, Nat.succ_ne_zero,
    if_false, Nat.add_sub_cancel]
  rw [if_pos hle]
  simp [finishTask, updateFirst, finishXform_taskId, claimXform_taskId]

theorem runNextTask_singleton_exhausted (t : Task) (now ttl : Int)
    (w e : String) (hstatus : t.status = "queued") (havail : t.availableAt ≤ now)
    (hgt : ¬ (t.attempts + 1 ≤ t.maxRetries)) :
    runNextTask [t] now ttl w (fun _ => Except.error e) =
      (RunOutcome.failedRun,
        [finishXform now "failed" none (some e) 0 (claimXform now w t)]) := by
  unfold runNextTask
  rw [claimNextTask_singleton_queued t now ttl w hstatus havail]
  simp only [claimXform_attempts, claimXform_maxRetries, Nat.succ_ne_zero,
    if_false, Nat.add_sub_cancel]
  rw [if_neg hgt]
  simp [finishTask, updateFirst, finishXform_taskId, claimXform_taskId]

/-- C1: a task enqueued with `maxRetries = 1` whose executor raises on both
runs is first retried (`retry_scheduled`, `availableAt = now1 + 1`) and then
terminally `failed` with `finishedAt` set — and the dead-letter view then
includes that task. -/
theorem dead_letter_after_second_failure (tid ty src w1 w2 e1 e2 : String)
    (runAt now0 now1 now2 ttl1 ttl2 : Int)
    (h1 : runAt ≤ now1) (h2 : now1 + 1 ≤ now2) :
    (runNextTask (enqueueTask [] tid ty runAt 1 now0 src) now1 ttl1 w1
        (fun _ => Except.error e1)).1 = RunOutcome.retryScheduled ∧
    (runNextTask
        (runNextTask (enqueueTask [] tid ty runAt 1 now0 src) now1 ttl1 w1
          (fun _ => Except.error e1)).2 now2 ttl2 w2
        (fun _ => Except.error e2)).1 = RunOutcome.failedRun ∧
    ∃ t ∈ listDeadLetters
        (runNextTask
          (runNextTask (enqueueTask [] tid ty runAt 1 now0 src) now1 ttl1 w1
            (fun _ => Except.error e1)).2 now2 ttl2 w2
          (fun _ => Except.error e2)).2,
      t.taskId = tid ∧ t.taskType = ty ∧ t.status = "failed" ∧
        t.finishedAt = some now2 := by
  have hq0 : enqueueTask [] tid ty runAt 1 now0 src =
      [mkTask tid ty runAt 1 now0 src] := rfl
  have hrun1 := runNextTask_singleton_retry (mkTask tid ty runAt 1 now0 src)
    now1 ttl1 w1 e1 rfl h1 (by simp [mkTask])
  have ht1status : (finishXform now1 "queued" none (some e1) ((2 : Int) ^ (0 : Nat))
      (claimXform now1 w1 (mkTask tid ty runAt 1 now0 src))).status = "queued" :=
    finishXform_status _ _ _ _ _ _
  have ht1avail : (finishXform now1 "queued" none (some e1) ((2 : Int) ^ (0 : Nat))
      (claimXform now1 w1 (mkTask tid ty runAt 1 now0 src))).availableAt =
      now1 + 1 := by
    rw [finishXform_availableAt_retry _ _ _ _ (by norm_num)]
    norm_num
  have hrun2 := runNextTask_singleton_exhausted
    (finishXform now1 "queued" none (some e1) ((2 : Int) ^ (0 : Nat))
      (claimXform now1 w1 (mkTask tid ty runAt 1 now0 src)))
    now2 ttl2 w2 e2 ht1status (by rw [ht1avail]; exact h2)
    (by
      rw [finishXform_attempts, claimXform_attempts, finishXform_maxRetries,
        claimXform_maxRetries]
      simp [mkTask])
  rw [hq0]
  have hattz : (mkTask tid ty runAt 1 now0 src).attempts = 0 := rfl
  rw [hattz] at hrun1
  refine ⟨by simp only [hrun1], by simp only [hrun1, hrun2], ?_⟩
  simp only [hrun1, hrun2]
  · refine ⟨finishXform now2 "failed" none (some e2) 0
      (claimXform now2 w2
        (finishXform now1 "queued" none (some e1) ((2 : Int) ^ (0 : Nat))
          (claimXform now1 w1 (mkTask tid ty runAt 1 now0 src)))),
      ?_, ?_, ?_, ?_, ?_⟩
    · simp [listDeadLetters, List.filter_cons, finishXform_status]
    · rw [finishXform_taskId, claimXform_taskId, finishXform_taskId,
        claimXform_taskId]
      rfl
    · rw [finishXform_taskType, claimXform_taskType, finishXform_taskType,
        claimXform_taskType]
      rfl
    · exact finishXform_status _ _ _ _ _ _
    · exact finishXform_finishedAt_terminal _ _ _ _ _ _ (Or.inr rfl)

theorem dead_letter_after_second_failure_witness :
    (0 : Int) ≤ 10 ∧ (10 : Int) + 1 ≤ 20 ∧
    ((runNextTask (enqueueTask [] "tsk_1" "build" 0 1 0 "manual") 10 300 "w"
        (fun _ => Except.error "boom")).1 = RunOutcome.retryScheduled ∧
      (runNextTask
          (runNextTask (enqueueTask [] "tsk_1" "build" 0 1 0 "manual") 10 300 "w"
            (fun _ => Except.error "boom")).2 20 300 "w"
          (fun _ => Except.error "boom")).1 = RunOutcome.failedRun ∧
      ∃ t ∈ listDeadLetters
          (runNextTask
            (runNextTask (enqueueTask [] "tsk_1" "build" 0 1 0 "manual") 10 300 "w"
              (fun _ => Except.error "boom")).2 20 300 "w"
            (fun _ => Except.error "boom")).2,
        t.taskId = "tsk_1" ∧ t.taskType = "build" ∧ t.status = "failed" ∧
          t.finishedAt = some 20) :=
  ⟨by norm_num, by norm_num,
    dead_letter_after_second_failure "tsk_1" "build" "manual" "w" "w" "boom"
      "boom" 0 0 10 20 300 300 (by norm_num) (by norm_num)⟩

theorem task_engine_invariant_witness :
    QReach qW2 ∧
    (∀ t ∈ qW2, t.attempts ≤ t.maxRetries + 1 ∧
      ((t.status = "done" ∨ t.status = "failed") → t.finishedAt.isSome = true)) := by
  have hreach : QReach qW2 :=
    Relation.ReflTransGen.tail
      (Relation.ReflTransGen.tail
        (Relation.ReflTransGen.single
          (QStep.enqueue [] "tsk_1" "build" "manual" 0 1 0 (by simp)))
        (QStep.runNext qW0 10 300 "w" execFail))
      (QStep.runNext qW1 20 300 "w" execFail)
  exact ⟨hreach, task_engine_invariant qW2 hreach⟩

/-! ### Calendar model

Embedding of the Python `date`/`datetime` arithmetic the alerts engine and
the scheduler rely on: proleptic-Gregorian day counts (civil-from-days and
days-from-civil), the Monday-based weekday and the ISO week number. The
integer divisions below are floor divisions, as in Python.
-/

/-- A calendar date. -/
structure Date where
  year : Nat
  month : Nat
  day : Nat
  deriving Repr, DecidableEq

/-- A monotone code for comparing valid dates; `YYYY-MM-DD` strings compare
identically. -/
def Date.code (d : Date) : Nat := (d.year * 16 + d.month) * 32 + d.day

/-- Days since 1970-01-01 of a civil date (proleptic Gregorian). -/
def daysFromCivil (dt : Date) : Int :=
  let y : Int := (dt.year : Int) - (if dt.month ≤ 2 then 1 else 0)
  let era : Int := y / 400
  let yoe : Int := y - era * 400
  let mp : Int := ((dt.month : Int) + 9) % 12
  let doy : Int := (153 * mp + 2) / 5 + (dt.day : Int) - 1
  let doe : Int := yoe * 365 + yoe / 4 - yoe / 100 + doy
  era * 146097 + doe - 719468

/-- The civil date of a day count since 1970-01-01. -/
def civilFromDays (days : Int) : Date :=
  let z : Int := days + 719468
  let era : Int := z / 146097
  let doe : Int := z - era * 146097
  let yoe : Int := (doe - doe / 1460 + doe / 36524 - doe / 146096) / 365
  let y : Int := yoe + era * 400
  let doy : Int := doe - (365 * yoe + yoe / 4 - yoe / 100)
  let mp : Int := (5 * doy + 2) / 153
  let d : Int := doy - (153 * mp + 2) / 5 + 1
  let m : Int := mp + (if mp < 10 then 3 else -9)
  { year := (y + (if m ≤ 2 then 1 else 0)).toNat, month := m.toNat, day := d.toNat }

/-- `date + timedelta(days=n)`. -/
def addDays (d : Date) (n : Int) : Date := civilFromDays (daysFromCivil d + n)

/-- Python's `date.weekday()`: Monday = 0 ... Sunday = 6. -/
def pyWeekday (d : Date) : Nat := ((daysFromCivil d + 3) % 7).toNat

/-- Zero-padded two-digit rendering. -/
def pad2 (n : Nat) : String := if n < 10 then "0" ++ toString n else toString n

/-- Zero-padded four-digit rendering. -/
def pad4 (n : Nat) : String :=
  if n < 10 then "000" ++ toString n
  else if n < 100 then "00" ++ toString n
  else if n < 1000 then "0" ++ toString n
  else toString n

/-- `date.isoformat()`. -/
def dateIso (d : Date) : String :=
  pad4 d.year ++ "-" ++ pad2 d.month ++ "-" ++ pad2 d.day

/-- `date.isocalendar()`'s (year, week): the ISO year and week number are
those of the Thursday of the date's week. -/
def isoYearWeek (d : Date) : Nat × Nat :=
  let thursday := addDays d (3 - (pyWeekday d : Int))
  let doy := daysFromCivil thursday - daysFromCivil ⟨thursday.year, 1, 1⟩
  (thursday.year, (doy / 7 + 1).toNat)

/-! ### Alerts engine (`alerts.py`)

The engine is modeled for `category_budget` rules — the branch the claims
cite; amounts are exact rationals (`Decimal` in the code), and the projected
transaction fields follow the getters of `txutil.py` (`tx_date`,
`tx_category_id`, `tx_merchant`, `tx_amount_decimal`; `txId` is always a
string in the data model). -/

/-- A transaction as the alerts engine sees it. `dateOf = none` models a
record with neither `occurredAt` nor `postedAt`. `currency` carries the
already-defaulted `str(amount.currency or "UNK")`. -/
structure ATx where
  txId : String
  dateOf : Option Date
  categoryId : String
  merchant : String
  amount : ℚ
  currency : String
  deriving Repr, DecidableEq

/-- The alert evaluation period. An unknown period string raises in the code
and is outside the embedding's domain; a missing/empty one is modeled as
`none` on the rule. -/
inductive Period where
  | day
  | week
  | month
  deriving Repr, DecidableEq

/-- `_period_key(period, at)`. -/
def periodKey : Period → Date → String
  | Period.day, at' => dateIso at'
  | Period.month, at' => pad4 at'.year ++ "-" ++ pad2 at'.month
  | Period.week, at' =>
    pad4 (isoYearWeek at').1 ++ "-W" ++ pad2 (isoYearWeek at').2

/-- `_period_bounds(period, at)`. -/
def periodBounds : Period → Date → Date × Date
  | Period.day, at' => (at', at')
  | Period.month, at' =>
    let nextMonth := if at'.month = 12 then Date.mk (at'.year + 1) 1 1
      else Date.mk at'.year (at'.month + 1) 1
    (Date.mk at'.year at'.month 1, addDays nextMonth (-1))
  | Period.week, at' =>
    let start := addDays at' (-(pyWeekday at' : Int))
    (start, addDays start 6)

/-- `filter_by_date_range(txs, from_date, to_date)`: transactions without a
date are skipped; the string comparisons of valid ISO dates are the `code`
comparisons. -/
def filterByDateRange (txs : List ATx) (fromD toD : Date) : List ATx :=
  txs.filter (fun tx =>
    match tx.dateOf with
    | none => false
    | some d => decide (fromD.code ≤ d.code) && decide (d.code ≤ toD.code))

/-- `_sum_category_spend(txs, category_id)`: total of the absolute values of
the debits in the category, with their txIds. -/
def sumCategorySpend (txs : List ATx) (categoryId : String) : ℚ × List String :=
  txs.foldl
    (fun acc tx =>
      if tx.categoryId ≠ categoryId then acc
      else if 0 ≤ tx.amount then acc
      else (acc.1 + (-tx.amount), acc.2 ++ [tx.txId]))
    (0, [])

/-- A `category_budget` rule. `period = none` models a missing/empty
`period` (the rule is skipped); `id`/`categoryId` empty likewise. -/
structure BudgetRule where
  id : String
  categoryId : String
  period : Option Period
  limit : ℚ
  deriving Repr, DecidableEq

/-- Per-rule alert state (`state["rules"][ruleId]`). -/
structure RuleState where
  lastTriggeredPeriodKey : Option String
  lastValue : Option ℚ
  deriving Repr, DecidableEq

/-- An emitted alert event (the fields the claims are about). -/
structure AEvent where
  ruleId : String
  period : Period
  periodKey : String
  scopeDate : Date
  limit : ℚ
  value : ℚ
  txIds : List String
  deriving Repr, DecidableEq

/-- One iteration of the rules loop of `run_alerts` for a `category_budget`
rule: skip empty ids/categories/periods; skip when
`state_rule.lastTriggeredPeriodKey == key`; sum the category debits of the
period window; fire when `spend > limit`, appending the event and (when
`commit`) recording `lastTriggeredPeriodKey = key` and `lastValue = spend`. -/
def budgetSpend (txs : List ATx) (at' : Date) (p : Period)
    (categoryId : String) : ℚ × List String :=
  sumCategorySpend
    (filterByDateRange txs (periodBounds p at').1 (periodBounds p at').2)
    categoryId

def runBudgetRule (txs : List ATx) (at' : Date) (commit : Bool)
    (acc : List AEvent × List (String × RuleState)) (rule : BudgetRule) :
    List AEvent × List (String × RuleState) :=
  if rule.id = "" then acc
  else if rule.categoryId = "" then acc
  else
    match rule.period with
    | none => acc
    | some p =>
      if ((getA acc.2 rule.id).getD ⟨none, none⟩).lastTriggeredPeriodKey
          = some (periodKey p at') then acc
      else if (budgetSpend txs at' p rule.categoryId).1 ≤ rule.limit then acc
      else
        (acc.1 ++ [⟨rule.id, p, periodKey p at', at', rule.limit,
            (budgetSpend txs at' p rule.categoryId).1,
            (budgetSpend txs at' p rule.categoryId).2.take 500⟩],
          if commit then
            setA acc.2 rule.id
              ⟨some (periodKey p at'), some (budgetSpend txs at' p rule.categoryId).1⟩
          else acc.2)

/-- `run_alerts(layout, at_date, commit)` over `category_budget` rules:
returns the emitted events and the final per-rule state (persisted only when
`commit`, which the state-threading reflects). -/
def runAlerts (rules : List BudgetRule) (st : List (String × RuleState))
    (txs : List ATx) (at' : Date) (commit : Bool) :
    List AEvent × List (String × RuleState) :=
  rules.foldl (runBudgetRule txs at' commit) ([], st)

theorem runBudgetRule_cases (txs : List ATx) (at' : Date) (c : Bool)
    (acc : List AEvent × List (String × RuleState)) (rule : BudgetRule) :
    runBudgetRule txs at' c acc rule = acc ∨
    ∃ p, rule.period = some p ∧ rule.id ≠ "" ∧
      ((getA acc.2 rule.id).getD ⟨none, none⟩).lastTriggeredPeriodKey
        ≠ some (periodKey p at') ∧
      runBudgetRule txs at' c acc rule =
        (acc.1 ++ [⟨rule.id, p, periodKey p at', at', rule.limit,
            (budgetSpend txs at' p rule.categoryId).1,
            (budgetSpend txs at' p rule.categoryId).2.take 500⟩],
          if c then
            setA acc.2 rule.id
              ⟨some (periodKey p at'),
                some (budgetSpend txs at' p rule.categoryId).1⟩
          else acc.2) := by
  unfold runBudgetRule
  by_cases h1 : rule.id = ""
  · rw [if_pos h1]
    exact Or.inl rfl
  rw [if_neg h1]
  by_cases h2 : rule.categoryId = ""
  · rw [if_pos h2]
    exact Or.inl rfl
  rw [if_neg h2]
  rcases hp : rule.period with _ | p
  · exact Or.inl rfl
  simp only
  by_cases h3 : ((getA acc.2 rule.id).getD ⟨none, none⟩).lastTriggeredPeriodKey
      = some (periodKey p at')
  · rw [if_pos h3]
    exact Or.inl rfl
  rw [if_neg h3]
  by_cases h4 : (budgetSpend txs at' p rule.categoryId).1 ≤ rule.limit
  · rw [if_pos h4]
    exact Or.inl rfl
  · rw [if_neg h4]
    exact Or.inr ⟨p, rfl, h1, h3, rfl⟩

theorem runAlerts_aux_records (txs : List ATx) (at' : Date) :
    ∀ (rules : List BudgetRule) (acc : List AEvent × List (String × RuleState)),
      (rules.map BudgetRule.id).Nodup →
      (∀ e ∈ acc.1, getA acc.2 e.ruleId = some ⟨some e.periodKey, some e.value⟩ ∧
        e.ruleId ∉ rules.map BudgetRule.id) →
      ∀ e ∈ (rules.foldl (runBudgetRule txs at' true) acc).1,
        getA (rules.foldl (runBudgetRule txs at' true) acc).2 e.ruleId =
          some ⟨some e.periodKey, some e.value⟩ := by
  intro rules
  induction rules with
  | nil =>
    intro acc _ hinv e he
    exact (hinv e he).1
  | cons r rest ih =>
    intro acc hN hinv
    simp only [List.foldl_cons]
    simp only [List.map_cons, List.nodup_cons] at hN
    apply ih _ hN.2
    rcases runBudgetRule_cases txs at' true acc r with heq |
      ⟨p, hp, hid, hguard, heq⟩
    · rw [heq]
      intro e he
      refine ⟨(hinv e he).1, ?_⟩
      have hmem := (hinv e he).2
      simp only [List.map_cons, List.mem_cons] at hmem
      push_neg at hmem
      exact hmem.2
    · rw [heq]
      intro e he
      rcases List.mem_append.mp he with h1 | h1
      · have hh := hinv e h1
        have hmem := hh.2
        simp only [List.map_cons, List.mem_cons] at hmem
        push_neg at hmem
        exact ⟨(getA_setA_ne acc.2 r.id e.ruleId _ hmem.1).trans hh.1, hmem.2⟩
      · rw [List.mem_singleton.mp h1]
        exact ⟨getA_setA_self acc.2 r.id _, hN.1⟩

theorem runAlerts_aux_skip (txs : List ATx) (at' : Date) (c : Bool)
    (R K : String) :
    ∀ (rules : List BudgetRule) (acc : List AEvent × List (String × RuleState)),
      (∃ v, getA acc.2 R = some v ∧ v.lastTriggeredPeriodKey = some K) →
      (∀ r ∈ rules, r.id = R → ∃ p, r.period = some p ∧ periodKey p at' = K) →
      (∀ e ∈ acc.1, e.ruleId ≠ R) →
      ∀ e ∈ (rules.foldl (runBudgetRule txs at' c) acc).1, e.ruleId ≠ R := by
  intro rules
  induction rules with
  | nil =>
    intro acc _ _ hacc e he
    exact hacc e he
  | cons r rest ih =>
    intro acc hstate hres hacc
    simp only [List.foldl_cons]
    have hresr := hres r (List.mem_cons_self r rest)
    have hrest : ∀ r' ∈ rest, r'.id = R →
        ∃ p, r'.period = some p ∧ periodKey p at' = K :=
      fun r' h => hres r' (List.mem_cons_of_mem _ h)
    rcases runBudgetRule_cases txs at' c acc r with heq |
      ⟨p, hp, hid, hguard, heq⟩
    · rw [heq]
      exact ih acc hstate hrest hacc
    · by_cases hr : r.id = R
      · exfalso
        obtain ⟨p', hp', hk⟩ := hresr hr
        rw [hp] at hp'
        injection hp' with hp'
        subst hp'
        obtain ⟨v, hv, hvk⟩ := hstate
        apply hguard
        rw [hr, hv]
        simp only [Option.getD_some]
        rw [hvk, hk]
      · rw [heq]
        apply ih
        · obtain ⟨v, hv, hvk⟩ := hstate
          refine ⟨v, ?_, hvk⟩
          cases c with
          | false => exact hv
          | true =>
            exact (getA_setA_ne acc.2 r.id R _ (fun hh => hr hh.symm)).trans hv
        · exact hrest
        · intro e he
          rcases List.mem_append.mp he with h1 | h1
          · exact hacc e h1
          · rw [List.mem_singleton.mp h1]
            exact hr

/-- C6: the alerts engine fires at most once per (rule, periodKey): a
`commit = true` run that emits an event for rule `R` records
`lastTriggeredPeriodKey` (and `lastValue`) for `R` in the returned state, and
any subsequent run from that state whose scope date resolves rule `R` to the
same periodKey emits no further event for `R`, regardless of the ledger
contents of the second run. -/
theorem alerts_fire_once_per_period (rules1 rules2 : List BudgetRule)
    (st1 : List (String × RuleState)) (txs1 txs2 : List ATx)
    (at1 at2 : Date) (c2 : Bool) (e : AEvent)
    (hN1 : (rules1.map BudgetRule.id).Nodup)
    (he : e ∈ (runAlerts rules1 st1 txs1 at1 true).1)
    (hres : ∀ r ∈ rules2, r.id = e.ruleId →
      ∃ p, r.period = some p ∧ periodKey p at2 = e.periodKey) :
    getA (runAlerts rules1 st1 txs1 at1 true).2 e.ruleId =
      some ⟨some e.periodKey, some e.value⟩ ∧
    ∀ e2 ∈ (runAlerts rules2 (runAlerts rules1 st1 txs1 at1 true).2
        txs2 at2 c2).1, e2.ruleId ≠ e.ruleId := by
  have hrec := runAlerts_aux_records txs1 at1 rules1 ([], st1) hN1
    (by intro e' he'; cases he') e he
  refine ⟨hrec, ?_⟩
  exact runAlerts_aux_skip txs2 at2 c2 e.ruleId e.periodKey rules2
    ([], (runAlerts rules1 st1 txs1 at1 true).2)
    ⟨⟨some e.periodKey, some e.value⟩, hrec, rfl⟩ hres
    (by intro e' he'; cases he')

/-- The concrete budget-dedup scenario shape of the spec: a `groceries`
monthly budget of 10 and a 13 USD groceries debit on 2026-02-10. -/
def ruleW : BudgetRule := ⟨"r1", "groceries", some Period.month, 10⟩

def txAlertW : ATx :=
  ⟨"t1", some ⟨2026, 2, 10⟩, "groceries", "FARMERS MARKET", -(13 : ℚ), "USD"⟩

def eventW : AEvent :=
  ⟨"r1", Period.month, "2026-02", ⟨2026, 2, 10⟩, 10, 13, ["t1"]⟩

theorem runAlerts_eval_concrete :
    runAlerts [ruleW] [] [txAlertW] ⟨2026, 2, 10⟩ true =
      ([eventW], [("r1", ⟨some "2026-02", some 13⟩)]) := by
  have hcond1 : ¬ (txAlertW.categoryId ≠ "groceries") := by decide
  have hcond2 : ¬ ((0 : ℚ) ≤ txAlertW.amount) := by decide
  have hspend : sumCategorySpend [txAlertW] "groceries" = (13, ["t1"]) := by
    unfold sumCategorySpend
    simp only [List.foldl_cons, List.foldl_nil, if_neg hcond1, if_neg hcond2]
    rw [Prod.mk.injEq]
    refine ⟨?_, rfl⟩
    show (0 : ℚ) + -(-(13 : ℚ)) = 13
    norm_num
  have hbudget : budgetSpend [txAlertW] ⟨2026, 2, 10⟩ Period.month "groceries" =
      (13, ["t1"]) := by
    unfold budgetSpend
    rw [show periodBounds Period.month ⟨2026, 2, 10⟩ =
      (⟨2026, 2, 1⟩, ⟨2026, 2, 28⟩) from by decide]
    rw [show filterByDateRange [txAlertW] ⟨2026, 2, 1⟩ ⟨2026, 2, 28⟩ =
      [txAlertW] from by decide]
    exact hspend
  show runBudgetRule [txAlertW] ⟨2026, 2, 10⟩ true ([], []) ruleW = _
  simp only [runBudgetRule, ruleW, getA]
  rw [hbudget]
  decide

theorem alerts_fire_once_per_period_witness :
    (runAlerts [ruleW] [] [txAlertW] ⟨2026, 2, 10⟩ true).1 = [eventW] ∧
    (runAlerts [ruleW] (runAlerts [ruleW] [] [txAlertW] ⟨2026, 2, 10⟩ true).2
      [txAlertW] ⟨2026, 2, 10⟩ true).1 = [] ∧
    (getA (runAlerts [ruleW] [] [txAlertW] ⟨2026, 2, 10⟩ true).2 eventW.ruleId =
        some ⟨some eventW.periodKey, some eventW.value⟩ ∧
      ∀ e2 ∈ (runAlerts [ruleW]
          (runAlerts [ruleW] [] [txAlertW] ⟨2026, 2, 10⟩ true).2
          [txAlertW] ⟨2026, 2, 10⟩ true).1, e2.ruleId ≠ eventW.ruleId) := by
  refine ⟨by rw [runAlerts_eval_concrete], by rw [runAlerts_eval_concrete]; decide, ?_⟩
  apply alerts_fire_once_per_period [ruleW] [ruleW] [] [txAlertW] [txAlertW]
    ⟨2026, 2, 10⟩ ⟨2026, 2, 10⟩ true eventW (by decide)
    (by rw [runAlerts_eval_concrete]; decide)
  intro r hr hid
  rw [List.mem_singleton.mp hr]
  exact ⟨Period.month, rfl, by decide⟩

/-! ### Merchant-spike rule (`alerts.py`, `merchant_spike` branch)

The per-(merchant, currency) spend maps and the spike-item computation of the
`merchant_spike` branch of `run_alerts`. -/

/-- Lookup in a (merchant, currency)-keyed spend map (`pm.get(key, 0)` uses
`getD 0` at the call sites). -/
def lookupQ : List ((String × String) × ℚ) → String × String → Option ℚ
  | [], _ => none
  | (k', v) :: rest, k => if k' = k then some v else lookupQ rest k

/-- Assignment in a spend map, Python-dict style. -/
def setQ : List ((String × String) × ℚ) → String × String → ℚ →
    List ((String × String) × ℚ)
  | [], k, v => [(k, v)]
  | (k', v') :: rest, k, v =>
    if k' = k then (k', v) :: rest else (k', v') :: setQ rest k v

/-- `_merchant_spend(txs)` (totals only): per-(merchant_lower, currency)
sums of the absolute debit amounts; non-debits and empty merchants are
skipped. -/
def merchantSpend (txs : List ATx) : List ((String × String) × ℚ) :=
  txs.foldl
    (fun totals tx =>
      if 0 ≤ tx.amount then totals
      else if tx.merchant.trim = "" then totals
      else
        setQ totals (tx.merchant.trim.toLower, tx.currency)
          ((lookupQ totals (tx.merchant.trim.toLower, tx.currency)).getD 0
            + (-tx.amount)))
    []

/-- The average spend over the prior lookback periods for one key:
`prev_sum / Decimal(str(len(prev_maps) or 1))`. -/
def prevAvgOf (prevMaps : List (List ((String × String) × ℚ)))
    (key : String × String) : ℚ :=
  (prevMaps.foldl (fun s pm => s + (lookupQ pm key).getD 0) 0) /
    ((if prevMaps.length = 0 then 1 else prevMaps.length : ℕ) : ℚ)

/-- A spike item of the `merchant_spike` branch. -/
structure SpikeItem where
  merchantKey : String × String
  current : ℚ
  avgPrev : ℚ
  deriving Repr, DecidableEq

/-- The item loop of the `merchant_spike` branch: for each current-period
group, skip when the merchant filter excludes it, when the prior average is
not positive (`prev_avg <= 0`), when `current <= prev_avg * multiplier`, or
when `current - prev_avg <= min_delta`; otherwise append a spike item. -/
def spikeItems (curTotals : List ((String × String) × ℚ))
    (prevMaps : List (List ((String × String) × ℚ)))
    (multiplier minDelta : ℚ) (merchantFilter : String) : List SpikeItem :=
  curTotals.foldl
    (fun items kv =>
      if merchantFilter ≠ "" ∧ kv.1.1 ≠ merchantFilter then items
      else if prevAvgOf prevMaps kv.1 ≤ 0 then items
      else if kv.2 ≤ prevAvgOf prevMaps kv.1 * multiplier then items
      else if kv.2 - prevAvgOf prevMaps kv.1 ≤ minDelta then items
      else items ++ [⟨kv.1, kv.2, prevAvgOf prevMaps kv.1⟩])
    []

theorem spikeItems_aux (prevMaps : List (List ((String × String) × ℚ)))
    (multiplier minDelta : ℚ) (merchantFilter : String) (key : String × String)
    (h : prevAvgOf prevMaps key ≤ 0) :
    ∀ (l : List ((String × String) × ℚ)) (acc : List SpikeItem),
      (∀ it ∈ acc, it.merchantKey ≠ key) →
      ∀ it ∈ l.foldl
        (fun items kv =>
          if merchantFilter ≠ "" ∧ kv.1.1 ≠ merchantFilter then items
          else if prevAvgOf prevMaps kv.1 ≤ 0 then items
          else if kv.2 ≤ prevAvgOf prevMaps kv.1 * multiplier then items
          else if kv.2 - prevAvgOf prevMaps kv.1 ≤ minDelta then items
          else items ++ [⟨kv.1, kv.2, prevAvgOf prevMaps kv.1⟩]) acc,
        it.merchantKey ≠ key := by
  intro l
  induction l with
  | nil => intro acc hacc it hit; exact hacc it hit
  | cons kv rest ih =>
    intro acc hacc
    simp only [List.foldl_cons]
    apply ih
    intro it hit
    by_cases h1 : merchantFilter ≠ "" ∧ kv.1.1 ≠ merchantFilter
    · rw [if_pos h1] at hit
      exact hacc it hit
    rw [if_neg h1] at hit
    by_cases h2 : prevAvgOf prevMaps kv.1 ≤ 0
    · rw [if_pos h2] at hit
      exact hacc it hit
    rw [if_neg h2] at hit
    by_cases h3 : kv.2 ≤ prevAvgOf prevMaps kv.1 * multiplier
    · rw [if_pos h3] at hit
      exact hacc it hit
    rw [if_neg h3] at hit
    by_cases h4 : kv.2 - prevAvgOf prevMaps kv.1 ≤ minDelta
    · rw [if_pos h4] at hit
      exact hacc it hit
    rw [if_neg h4] at hit
    rcases List.mem_append.mp hit with h5 | h5
    · exact hacc it h5
    · rw [List.mem_singleton.mp h5]
      intro hcontra
      simp only at hcontra
      rw [hcontra] at h2
      exact h2 h

/-- C10: in the `merchant_spike` item computation, a (merchant, currency)
group whose average spend over the prior lookback periods is zero or
negative never produces a spike item, whatever its current-period spend; in
particular a group absent from every lookback map (no debits in any lookback
period) has average exactly 0. -/
theorem merchant_spike_nonpositive_avg_no_item
    (curTotals : List ((String × String) × ℚ))
    (prevMaps : List (List ((String × String) × ℚ)))
    (multiplier minDelta : ℚ) (merchantFilter : String)
    (key : String × String) (h : prevAvgOf prevMaps key ≤ 0) :
    ((∀ pm ∈ prevMaps, lookupQ pm key = none) → prevAvgOf prevMaps key = 0) ∧
    ∀ it ∈ spikeItems curTotals prevMaps multiplier minDelta merchantFilter,
      it.merchantKey ≠ key := by
  constructor
  · intro habsent
    unfold prevAvgOf
    have hsum : prevMaps.foldl (fun s pm => s + (lookupQ pm key).getD 0) 0
        = 0 := by
      have hgen : ∀ (maps : List (List ((String × String) × ℚ))) (s : ℚ),
          (∀ pm ∈ maps, lookupQ pm key = none) →
          maps.foldl (fun s pm => s + (lookupQ pm key).getD 0) s = s := by
        intro maps
        induction maps with
        | nil => intro s _; rfl
        | cons pm rest ihm =>
          intro s hmaps
          simp only [List.foldl_cons]
          rw [hmaps pm (List.mem_cons_self _ _), Option.getD_none, add_zero]
          exact ihm s (fun pm' h' => hmaps pm' (List.mem_cons_of_mem _ h'))
      exact hgen prevMaps 0 habsent
    rw [hsum, zero_div]
  · intro it hit
    exact spikeItems_aux prevMaps multiplier minDelta merchantFilter key h
      curTotals [] (fun it hit => absurd hit (List.not_mem_nil it)) it hit

/-- Concrete lookback maps for the spike witness: one empty lookback period,
a large current-period spend. -/
def spikeKeyW : String × String := ("coffee shop", "USD")

theorem merchant_spike_nonpositive_avg_no_item_witness :
    prevAvgOf [[]] spikeKeyW ≤ 0 ∧
    (((∀ pm ∈ [([] : List ((String × String) × ℚ))], lookupQ pm spikeKeyW = none) →
        prevAvgOf [[]] spikeKeyW = 0) ∧
      ∀ it ∈ spikeItems [(spikeKeyW, 1000)] [[]] (3/2) 50 "",
        it.merchantKey ≠ spikeKeyW) := by
  have havg : prevAvgOf [[]] spikeKeyW = 0 := by
    unfold prevAvgOf
    simp [lookupQ]
  refine ⟨le_of_eq havg, ?_⟩
  exact merchant_spike_nonpositive_avg_no_item [(spikeKeyW, 1000)] [[]]
    (3/2) 50 "" spikeKeyW (le_of_eq havg)

/-! ### Job scheduler (`automation.py`, `_job_slot` / `enqueue_due_jobs`)

The slot computation and the due-job loop. A `Schedule` carries the values
after the source's normalisation (`str(schedule.get("freq") or
"daily").lower()`, `at` defaulting to `"00:00"` with `hh, mm =
at.split(":")`, `day` defaulting to `"mon"`, lowercased); a UTC instant is a
date plus time-of-day fields. -/

/-- A UTC instant (`datetime` with `tzinfo=UTC`, microsecond irrelevant to
the scheduler: slots zero it out and `enqueue_due_jobs` truncates it). -/
structure DT where
  date : Date
  hour : Nat
  minute : Nat
  second : Nat
  deriving Repr, DecidableEq

/-- Seconds since midnight; `at >= at.replace(hour=hh, minute=mm, second=0,
microsecond=0)` is `todCode` comparison because the date parts agree. -/
def DT.todCode (t : DT) : Nat := (t.hour * 60 + t.minute) * 60 + t.second

/-- `_weekday_name`: `["mon","tue","wed","thu","fri","sat","sun"][dt.weekday()]`. -/
def weekdayName (d : Date) : String :=
  (["mon", "tue", "wed", "thu", "fri", "sat", "sun"].getD (pyWeekday d) "mon")

/-- `slot_hour.isoformat().replace("+00:00", "Z")` for the hour-truncated
UTC instant. -/
def hourIsoZ (d : Date) (hour : Nat) : String :=
  dateIso d ++ "T" ++ pad2 hour ++ ":00:00Z"

/-- A job schedule after the source's default/normalisation parsing. -/
structure Schedule where
  freq : String
  atStr : String
  atH : Nat
  atM : Nat
  day : String
  interval : Int
  deriving Repr, DecidableEq

/-- A job record: `id`, `enabled`, `schedule` and the task definition
(`str(task.get("type") or "")`, `int(task.get("maxRetries") or 2)`). -/
structure Job where
  id : String
  enabled : Bool
  schedule : Schedule
  taskType : String
  maxRetries : Int
  deriving Repr, DecidableEq

/-- `_job_slot(job, at=...)`: the current slot key of a schedule at an
instant, or `none` when the schedule is not due. -/
def jobSlot (s : Schedule) (now : DT) : Option String :=
  if s.freq = "daily" then
    if (s.atH * 60 + s.atM) * 60 ≤ now.todCode then
      some ("daily:" ++ dateIso now.date ++ ":" ++ s.atStr)
    else none
  else if s.freq = "weekly" then
    if weekdayName now.date ≠ s.day then none
    else if (s.atH * 60 + s.atM) * 60 ≤ now.todCode then
      some ("weekly:" ++ dateIso now.date ++ ":" ++ s.atStr ++ ":" ++ s.day)
    else none
  else if s.freq = "hourly" then
    if now.hour % (max 1 s.interval).toNat = 0 then
      some ("hourly:" ++ hourIsoZ now.date now.hour ++ ":i" ++
        toString (max 1 s.interval).toNat)
    else none
  else none

/-- Python's `str.strip()`: drop leading and trailing whitespace. -/
def pyStrip (s : String) : String :=
  ⟨((s.data.dropWhile Char.isWhitespace).reverse.dropWhile
      Char.isWhitespace).reverse⟩

/-- The mutable state of one `enqueue_due_jobs` run: the `created` and
`skipped` job-id lists, the `lastSlots` map, and one `(task_type,
source)` record per `enqueue_task` call issued. -/
structure EnqState where
  created : List String
  skipped : List String
  lastSlots : List (String × String)
  newTasks : List (String × String)
  deriving Repr, DecidableEq

/-- The body of the slot branch of the job loop: skip when
`lastSlots[jobId]` already equals the slot, drop jobs with a blank task
type, otherwise enqueue and record the slot. -/
def slotStep (st : EnqState) (job : Job) (slot : String) : EnqState :=
  if (getA st.lastSlots job.id).getD "" = slot then
    { st with skipped := st.skipped ++ [job.id] }
  else if (pyStrip job.taskType) = "" then st
  else
    { created := st.created ++ [job.id]
      skipped := st.skipped
      lastSlots := setA st.lastSlots job.id slot
      newTasks := st.newTasks ++ [((pyStrip job.taskType), "job:" ++ job.id)] }

/-- One iteration of the `for job in jobs` loop of `enqueue_due_jobs`. -/
def stepJob (now : DT) (st : EnqState) (job : Job) : EnqState :=
  if job.enabled = false then st
  else if job.id = "" then st
  else
    match jobSlot job.schedule now with
    | none => st
    | some slot => slotStep st job slot

/-- `enqueue_due_jobs(layout, at=...)` over an in-memory jobs list and
`lastSlots` map. -/
def enqueueDueJobs (jobs : List Job) (lastSlots : List (String × String))
    (now : DT) : EnqState :=
  jobs.foldl (stepJob now) ⟨[], [], lastSlots, []⟩

theorem stepJob_frame (now : DT) (st : EnqState) (job : Job) (jid : String)
    (h : job.id ≠ jid) :
    getA (stepJob now st job).lastSlots jid = getA st.lastSlots jid ∧
    (stepJob now st job).created.count jid = st.created.count jid ∧
    (jid ∈ (stepJob now st job).skipped ↔ jid ∈ st.skipped) := by
  unfold stepJob
  by_cases h1 : job.enabled = false
  · rw [if_pos h1]; exact ⟨rfl, rfl, Iff.rfl⟩
  rw [if_neg h1]
  by_cases h2 : job.id = ""
  · rw [if_pos h2]; exact ⟨rfl, rfl, Iff.rfl⟩
  rw [if_neg h2]
  cases hs : jobSlot job.schedule now with
  | none => exact ⟨rfl, rfl, Iff.rfl⟩
  | some slot =>
    show getA (slotStep st job slot).lastSlots jid = getA st.lastSlots jid ∧
      (slotStep st job slot).created.count jid = st.created.count jid ∧
      (jid ∈ (slotStep st job slot).skipped ↔ jid ∈ st.skipped)
    unfold slotStep
    by_cases h3 : (getA st.lastSlots job.id).getD "" = slot
    · rw [if_pos h3]
      refine ⟨rfl, rfl, ?_⟩
      constructor
      · intro hmem
        rcases List.mem_append.mp hmem with hmem | hmem
        · exact hmem
        · exact absurd (List.mem_singleton.mp hmem).symm h
      · intro hmem
        exact List.mem_append.mpr (Or.inl hmem)
    rw [if_neg h3]
    by_cases h4 : (pyStrip job.taskType) = ""
    · rw [if_pos h4]; exact ⟨rfl, rfl, Iff.rfl⟩
    rw [if_neg h4]
    refine ⟨getA_setA_ne _ _ _ _ (Ne.symm h), ?_, Iff.rfl⟩
    have hz : List.count jid [job.id] = 0 :=
      List.count_eq_zero.mpr (by intro hmem; exact h (List.mem_singleton.mp hmem).symm)
    rw [List.count_append, hz, Nat.add_zero]

theorem foldl_stepJob_frame (now : DT) (jid : String) :
    ∀ (l : List Job), (∀ j' ∈ l, j'.id ≠ jid) → ∀ (st : EnqState),
      getA (l.foldl (stepJob now) st).lastSlots jid = getA st.lastSlots jid ∧
      (l.foldl (stepJob now) st).created.count jid = st.created.count jid ∧
      (jid ∈ (l.foldl (stepJob now) st).skipped ↔ jid ∈ st.skipped) := by
  intro l
  induction l with
  | nil => intro _ st; exact ⟨rfl, rfl, Iff.rfl⟩
  | cons job rest ih =>
    intro hall st
    have hstep := stepJob_frame now st job jid (hall job (List.mem_cons_self _ _))
    have hrest := ih (fun j' hj' => hall j' (List.mem_cons_of_mem _ hj'))
      (stepJob now st job)
    simp only [List.foldl_cons]
    exact ⟨hrest.1.trans hstep.1, hrest.2.1.trans hstep.2.1,
      hrest.2.2.trans hstep.2.2⟩

theorem stepJob_len (now : DT) (st : EnqState) (job : Job)
    (h : st.newTasks.length = st.created.length) :
    (stepJob now st job).newTasks.length =
      (stepJob now st job).created.length := by
  unfold stepJob
  by_cases h1 : job.enabled = false
  · rw [if_pos h1]; exact h
  rw [if_neg h1]
  by_cases h2 : job.id = ""
  · rw [if_pos h2]; exact h
  rw [if_neg h2]
  cases hs : jobSlot job.schedule now with
  | none => exact h
  | some slot =>
    show (slotStep st job slot).newTasks.length =
      (slotStep st job slot).created.length
    unfold slotStep
    by_cases h3 : (getA st.lastSlots job.id).getD "" = slot
    · rw [if_pos h3]; exact h
    rw [if_neg h3]
    by_cases h4 : (pyStrip job.taskType) = ""
    · rw [if_pos h4]; exact h
    rw [if_neg h4]
    simp only [List.length_append, List.length_cons, List.length_nil, h]

theorem foldl_stepJob_len (now : DT) :
    ∀ (l : List Job) (st : EnqState),
      st.newTasks.length = st.created.length →
      (l.foldl (stepJob now) st).newTasks.length =
        (l.foldl (stepJob now) st).created.length := by
  intro l
  induction l with
  | nil => intro st h; exact h
  | cons job rest ih =>
    intro st h
    simp only [List.foldl_cons]
    exact ih _ (stepJob_len now st job h)

theorem stepJob_self_skip (now : DT) (st : EnqState) (j : Job)
    (hen : j.enabled = true) (hid : j.id ≠ "") (slot : String)
    (hslot : jobSlot j.schedule now = some slot)
    (hlast : (getA st.lastSlots j.id).getD "" = slot) :
    stepJob now st j = { st with skipped := st.skipped ++ [j.id] } := by
  unfold stepJob
  rw [if_neg (fun hh => Bool.noConfusion (hen.symm.trans hh)), if_neg hid, hslot]
  show slotStep st j slot = { st with skipped := st.skipped ++ [j.id] }
  unfold slotStep
  rw [if_pos hlast]

theorem stepJob_self_create (now : DT) (st : EnqState) (j : Job)
    (hen : j.enabled = true) (hid : j.id ≠ "") (slot : String)
    (hslot : jobSlot j.schedule now = some slot)
    (hlast : (getA st.lastSlots j.id).getD "" ≠ slot)
    (hty : (pyStrip j.taskType) ≠ "") :
    stepJob now st j =
      { created := st.created ++ [j.id]
        skipped := st.skipped
        lastSlots := setA st.lastSlots j.id slot
        newTasks := st.newTasks ++ [((pyStrip j.taskType), "job:" ++ j.id)] } := by
  unfold stepJob
  rw [if_neg (fun hh => Bool.noConfusion (hen.symm.trans hh)), if_neg hid, hslot]
  show slotStep st j slot =
    { created := st.created ++ [j.id]
      skipped := st.skipped
      lastSlots := setA st.lastSlots j.id slot
      newTasks := st.newTasks ++ [((pyStrip j.taskType), "job:" ++ j.id)] }
  unfold slotStep
  rw [if_neg hlast, if_neg hty]

theorem enqueueDueJobs_cases (lastSlots : List (String × String)) (now : DT)
    (j : Job) (slot : String) (s t : List Job)
    (hpre : ∀ j' ∈ s, j'.id ≠ j.id) (hpost : ∀ j' ∈ t, j'.id ≠ j.id)
    (hen : j.enabled = true) (hid : j.id ≠ "")
    (hslot : jobSlot j.schedule now = some slot)
    (hty : (pyStrip j.taskType) ≠ "") :
    ((getA lastSlots j.id).getD "" = slot →
      j.id ∈ (enqueueDueJobs (s ++ j :: t) lastSlots now).skipped ∧
      (enqueueDueJobs (s ++ j :: t) lastSlots now).created.count j.id = 0 ∧
      getA (enqueueDueJobs (s ++ j :: t) lastSlots now).lastSlots j.id =
        getA lastSlots j.id) ∧
    ((getA lastSlots j.id).getD "" ≠ slot →
      (enqueueDueJobs (s ++ j :: t) lastSlots now).created.count j.id = 1 ∧
      getA (enqueueDueJobs (s ++ j :: t) lastSlots now).lastSlots j.id =
        some slot) := by
  have hfold : enqueueDueJobs (s ++ j :: t) lastSlots now =
      t.foldl (stepJob now)
        (stepJob now (s.foldl (stepJob now) ⟨[], [], lastSlots, []⟩) j) := by
    unfold enqueueDueJobs
    rw [List.foldl_append, List.foldl_cons]
  obtain ⟨hA, hB, _⟩ :=
    foldl_stepJob_frame now j.id s hpre ⟨[], [], lastSlots, []⟩
  rw [hfold]
  generalize hg :
    s.foldl (stepJob now) (⟨[], [], lastSlots, []⟩ : EnqState) = st0 at hA hB ⊢
  have hA' : getA st0.lastSlots j.id = getA lastSlots j.id := hA
  have hB' : st0.created.count j.id = 0 := hB
  constructor
  · intro hlast
    have hlast0 : (getA st0.lastSlots j.id).getD "" = slot := by
      rw [hA']; exact hlast
    rw [stepJob_self_skip now st0 j hen hid slot hslot hlast0]
    obtain ⟨pA, pB, pC⟩ := foldl_stepJob_frame now j.id t hpost
      { st0 with skipped := st0.skipped ++ [j.id] }
    refine ⟨?_, ?_, ?_⟩
    · exact pC.mpr (List.mem_append.mpr (Or.inr (List.mem_singleton.mpr rfl)))
    · rw [pB]; exact hB'
    · rw [pA]; exact hA'
  · intro hlast
    have hlast0 : ¬(getA st0.lastSlots j.id).getD "" = slot := by
      rw [hA']; exact hlast
    rw [stepJob_self_create now st0 j hen hid slot hslot hlast0 hty]
    obtain ⟨pA, pB, _⟩ := foldl_stepJob_frame now j.id t hpost
      { created := st0.created ++ [j.id]
        skipped := st0.skipped
        lastSlots := setA st0.lastSlots j.id slot
        newTasks := st0.newTasks ++ [((pyStrip j.taskType), "job:" ++ j.id)] }
    refine ⟨?_, ?_⟩
    · rw [pB]
      show (st0.created ++ [j.id]).count j.id = 1
      rw [List.count_append, hB']
      simp [List.count_cons]
    · rw [pA]
      show getA (setA st0.lastSlots j.id slot) j.id = some slot
      exact getA_setA_self _ _ _

/-- C7: for every enabled job with a nonempty id, a due slot and a nonempty
task type, `enqueue_due_jobs` enqueues at most one task per slot. The run
issues exactly one `enqueue_task` call per created job id; if the computed
slot key already equals `lastSlots[jobId]` the job is skipped and creates
nothing; otherwise the job is created exactly once and `lastSlots[jobId]` is
set to the slot, so a repeated run whose instant falls in the same slot
(e.g. a daily 08:00 job re-evaluated later the same day) skips the job and
creates no additional task; a new slot key (e.g. the next day) is created
exactly once again. -/
theorem enqueue_due_jobs_slot_dedup
    (jobs : List Job) (lastSlots : List (String × String)) (now now2 : DT)
    (j : Job) (slot : String)
    (hmem : j ∈ jobs) (hnd : (jobs.map Job.id).Nodup)
    (hen : j.enabled = true) (hid : j.id ≠ "")
    (hslot : jobSlot j.schedule now = some slot)
    (hty : (pyStrip j.taskType) ≠ "") :
    (enqueueDueJobs jobs lastSlots now).newTasks.length =
      (enqueueDueJobs jobs lastSlots now).created.length ∧
    ((getA lastSlots j.id).getD "" = slot →
      j.id ∈ (enqueueDueJobs jobs lastSlots now).skipped ∧
      (enqueueDueJobs jobs lastSlots now).created.count j.id = 0) ∧
    ((getA lastSlots j.id).getD "" ≠ slot →
      (enqueueDueJobs jobs lastSlots now).created.count j.id = 1 ∧
      getA (enqueueDueJobs jobs lastSlots now).lastSlots j.id = some slot ∧
      (jobSlot j.schedule now2 = some slot →
        j.id ∈ (enqueueDueJobs jobs
          (enqueueDueJobs jobs lastSlots now).lastSlots now2).skipped ∧
        (enqueueDueJobs jobs
            (enqueueDueJobs jobs lastSlots now).lastSlots now2).created.count
          j.id = 0)) := by
  obtain ⟨s, t, hsplit⟩ := List.append_of_mem hmem
  subst hsplit
  rw [List.map_append, List.map_cons] at hnd
  have hcons : (j.id :: t.map Job.id).Nodup := hnd.of_append_right
  have hjnott : j.id ∉ t.map Job.id := (List.nodup_cons.mp hcons).1
  have hdisj := List.disjoint_of_nodup_append hnd
  have hjnots : j.id ∉ s.map Job.id :=
    fun hmem2 => hdisj hmem2 (List.mem_cons_self _ _)
  have hpre : ∀ j' ∈ s, j'.id ≠ j.id :=
    fun j' hj' heq => hjnots (heq ▸ List.mem_map_of_mem Job.id hj')
  have hpost : ∀ j' ∈ t, j'.id ≠ j.id :=
    fun j' hj' heq => hjnott (heq ▸ List.mem_map_of_mem Job.id hj')
  obtain ⟨hskip, hcreate⟩ :=
    enqueueDueJobs_cases lastSlots now j slot s t hpre hpost hen hid hslot hty
  refine ⟨foldl_stepJob_len now (s ++ j :: t) ⟨[], [], lastSlots, []⟩ rfl,
    ?_, ?_⟩
  · intro hlast
    exact ⟨(hskip hlast).1, (hskip hlast).2.1⟩
  · intro hlast
    obtain ⟨hcount, hget⟩ := hcreate hlast
    refine ⟨hcount, hget, ?_⟩
    intro hslot2
    obtain ⟨hskip2, _⟩ := enqueueDueJobs_cases
      (enqueueDueJobs (s ++ j :: t) lastSlots now).lastSlots now2 j slot s t
      hpre hpost hen hid hslot2 hty
    have hcond :
        (getA (enqueueDueJobs (s ++ j :: t) lastSlots now).lastSlots
          j.id).getD "" = slot := by
      rw [hget]; rfl
    exact ⟨(hskip2 hcond).1, (hskip2 hcond).2.1⟩

/-- Daily 08:00 job used in the scheduler witness. -/
def jobW : Job :=
  { id := "job_daily"
    enabled := true
    schedule :=
      { freq := "daily", atStr := "08:00", atH := 8, atM := 0,
        day := "mon", interval := 1 }
    taskType := "report.daily"
    maxRetries := 2 }

/-- 2026-02-10T08:10:00Z. -/
def dtW1 : DT := ⟨⟨2026, 2, 10⟩, 8, 10, 0⟩

/-- 2026-02-10T08:20:00Z. -/
def dtW2 : DT := ⟨⟨2026, 2, 10⟩, 8, 20, 0⟩

theorem enqueue_due_jobs_slot_dedup_witness :
    jobSlot jobW.schedule dtW1 = some "daily:2026-02-10:08:00" ∧
    jobSlot jobW.schedule dtW2 = some "daily:2026-02-10:08:00" ∧
    (getA ([] : List (String × String)) jobW.id).getD "" ≠
      "daily:2026-02-10:08:00" ∧
    ((enqueueDueJobs [jobW] [] dtW1).created.count jobW.id = 1 ∧
      getA (enqueueDueJobs [jobW] [] dtW1).lastSlots jobW.id =
        some "daily:2026-02-10:08:00" ∧
      (jobSlot jobW.schedule dtW2 = some "daily:2026-02-10:08:00" →
        jobW.id ∈ (enqueueDueJobs [jobW]
          (enqueueDueJobs [jobW] [] dtW1).lastSlots dtW2).skipped ∧
        (enqueueDueJobs [jobW]
            (enqueueDueJobs [jobW] [] dtW1).lastSlots dtW2).created.count
          jobW.id = 0)) := by
  refine ⟨by decide, by decide, by decide, ?_⟩
  exact (enqueue_due_jobs_slot_dedup [jobW] [] dtW1 dtW2 jobW
    "daily:2026-02-10:08:00" (List.mem_singleton.mpr rfl) (by decide)
    rfl (by decide) (by decide) (by decide)).2.2 (by decide)

end LedgerFlow
